import Mathlib

set_option maxHeartbeats 1600000

/-!
Verification of the release-dates pipeline in `src/api/list-release.js`
(the first variant in that file, lines 1-352, which is the one the claim
line numbers refer to).

Strings are manipulated at the `List Char` level with structural
functions so that every definition evaluates inside the kernel.  JavaScript
string primitives (`<` on strings, `toUpperCase`, `trim`, `split`,
`parseInt`, regular-expression matching for the fixed patterns appearing in
the source) are modelled explicitly below; all data reaching them in this
code base is ASCII, where the models coincide with the JavaScript
semantics.
-/

namespace ListRelease

/-! ### JavaScript string primitives -/

/-- Lexicographic comparison of char lists by code point; models the
JavaScript `<` operator on strings (code-unit order, identical on the
ASCII data handled here). -/
def clLt : List Char → List Char → Bool
  | [], [] => false
  | [], _ :: _ => true
  | _ :: _, [] => false
  | a :: as, b :: bs => if a = b then clLt as bs else decide (a < b)

/-- Models `String.prototype.toUpperCase` (ASCII range). -/
def jsToUpper (s : String) : String :=
  String.mk (s.toList.map Char.toUpper)

/-- Models `String.prototype.trim` (ASCII whitespace). -/
def jsTrim (s : String) : String :=
  String.mk
    (((s.toList.dropWhile Char.isWhitespace).reverse.dropWhile
        Char.isWhitespace).reverse)

/-- Decimal value of a digit list (most significant first). -/
def digitsVal (cs : List Char) : Nat :=
  cs.foldl (fun a c => a * 10 + (c.toNat - ('0').toNat)) 0

/-- Parses a leading run of decimal digits; `none` when there is none. -/
def parseDigits (cs : List Char) : Option Nat :=
  let ds := cs.takeWhile Char.isDigit
  if ds.isEmpty then none else some (digitsVal ds)

/-- Models `parseInt(s, 10)`: skip leading whitespace, optional sign,
then a run of decimal digits; `none` models a `NaN` result. -/
def parseIntJs10 (s : String) : Option Int :=
  match s.toList.dropWhile Char.isWhitespace with
  | '-' :: rest => (parseDigits rest).map (fun n => -(n : Int))
  | '+' :: rest => (parseDigits rest).map (fun n => (n : Int))
  | cs => (parseDigits cs).map (fun n => (n : Int))

/-- Tries to match the fixed pattern `\d{4}-\d{2}-\d{2}` at the head of a
char list, returning the year, month and day groups. -/
def isoAt : List Char → Option (String × String × String)
  | y1 :: y2 :: y3 :: y4 :: '-' :: m1 :: m2 :: '-' :: d1 :: d2 :: _ =>
    if ([y1, y2, y3, y4, m1, m2, d1, d2]).all Char.isDigit then
      some (String.mk [y1, y2, y3, y4], String.mk [m1, m2],
            String.mk [d1, d2])
    else none
  | _ => none

/-- Leftmost match of `(\d{4})-(\d{2})-(\d{2})`, as groups.  The pattern
has fixed-width pieces and no alternation, so a JavaScript regex match
succeeds at a position exactly when `isoAt` does, and `match` returns the
leftmost one. -/
def findIsoGroups : List Char → Option (String × String × String)
  | [] => none
  | c :: cs =>
    match isoAt (c :: cs) with
    | some g => some g
    | none => findIsoGroups cs

/-- Leftmost match of `(\d{4}-\d{2}-\d{2})` as a whole string; models
`s.match(/(\d{4}-\d{2}-\d{2})/)` yielding `m[1]`. -/
def findIsoDate (s : String) : Option String :=
  (findIsoGroups s.toList).map
    (fun g => g.1 ++ ("-") ++ g.2.1 ++ ("-") ++ g.2.2)

/-- Model of `isoToDDMM` (source lines 126-131): `null` input (the falsy
empty string for us) gives `null`; otherwise match
`(\d{4})-(\d{2})-(\d{2})` and rebuild as `day-month-year`. -/
def isoToDDMM (iso : String) : Option String :=
  if iso = ("") then none
  else
    (findIsoGroups iso.toList).map
      (fun g => g.2.2 ++ ("-") ++ g.2.1 ++ ("-") ++ g.1)

/-- Models `x ? isoToDDMM(x) : null` on an optional string: `none` and the
empty string are falsy. -/
def ddmmIfTruthy (o : Option String) : Option String :=
  match o with
  | none => none
  | some s => if s = ("") then none else isoToDDMM s

/-! ### Document model for the cheerio-parsed HTML

The scraping helpers only ever use cheerio through: selection of elements
by tag, class, attribute presence or attribute equality (in document
order), `.first()`, `.last()`, `.find(tag)` (descendants), `.text()`
(concatenated descendant text) and `.attr(name)`.  The document is
modelled as a tree and those operations are defined on it directly; tag
and attribute names in this code base are lowercase ASCII, where the
model agrees with cheerio's case handling. -/

/-- A parsed HTML node: an element with tag, attributes and children, or
a text node. -/
inductive Html where
  | elem (tag : String) (attrs : List (String × String)) (children : List Html)
  | text (s : String)

mutual

/-- Concatenated text of all descendant text nodes; models `.text()`. -/
def Html.textOf : Html → String
  | .text s => s
  | .elem _ _ cs => textOfList cs

/-- Concatenated text of a forest, in order. -/
def textOfList : List Html → String
  | [] => ("")
  | h :: t => Html.textOf h ++ textOfList t

end

mutual

/-- All nodes of the tree in document (pre-)order, the node itself first. -/
def Html.allNodes : Html → List Html
  | .text s => [.text s]
  | .elem t a cs => .elem t a cs :: allNodesList cs

/-- All nodes of a forest in document order. -/
def allNodesList : List Html → List Html
  | [] => []
  | h :: t => Html.allNodes h ++ allNodesList t

end

/-- All strict descendants in document order; models `.find(...)`'s
search space. -/
def Html.descendants : Html → List Html
  | .text _ => []
  | .elem _ _ cs => allNodesList cs

/-- Attribute lookup; models `.attr(name)` (`none` = `undefined`). -/
def Html.attr : Html → String → Option String
  | .text _, _ => none
  | .elem _ attrs _, k => attrs.lookup k

/-- Tag test; text nodes match no tag selector. -/
def Html.tagIs : Html → String → Bool
  | .text _, _ => false
  | .elem t _ _, tg => t == tg

/-- Splits on whitespace runs, dropping empty pieces; models how a
`class` attribute value lists its classes. -/
def wsSplitGo (cur : List Char) : List Char → List String
  | [] => if cur.isEmpty then [] else [String.mk cur.reverse]
  | c :: t =>
    if c.isWhitespace then
      if cur.isEmpty then wsSplitGo [] t
      else String.mk cur.reverse :: wsSplitGo [] t
    else wsSplitGo (c :: cur) t

/-- Class test; models the `.cls` selector part. -/
def Html.hasClass (h : Html) (cls : String) : Bool :=
  (wsSplitGo [] ((h.attr ("class")).getD ("")).toList).contains cls

/-! ### List-page parsing (source lines 95-114) -/

/-- The values pushed by the `each` loop of `parseListPageForSlugs`
(source lines 98-101): for every element carrying a `data-item-slug`
attribute, in document order, the trimmed value when the raw value is
truthy. -/
def rawSlugs (doc : Html) : List String :=
  doc.allNodes.filterMap (fun el =>
    match el.attr ("data-item-slug") with
    | some v => if v = ("") then none else some (jsTrim v)
    | none => none)

/-- Insertion into a JavaScript `Set` viewed as its insertion-order
element list. -/
def addUnique (l : List String) (x : String) : List String :=
  if l.contains x then l else l ++ [x]

/-- Models `[...new Set(arr)]`: first-seen-order de-duplication. -/
def dedupFirst (l : List String) : List String :=
  l.foldl addUnique []

/-- Model of `parseListPageForSlugs` (source lines 95-103). -/
def parseListPageForSlugs (doc : Html) : List String :=
  dedupFirst (rawSlugs doc)

/-- The elements selected by `$('li.paginate-page')`. -/
def paginateItems (doc : Html) : List Html :=
  doc.allNodes.filter
    (fun el => el.tagIs ("li") && el.hasClass ("paginate-page"))

/-- The trimmed text of the first anchor under a pagination item
(source lines 110-111); the empty selection has empty text. -/
def paginationLabelOf (last : Html) : String :=
  jsTrim
    (match (last.descendants.filter (fun el => el.tagIs ("a"))).head? with
     | some a => a.textOf
     | none => (""))

/-- Model of `findPageCount` (source lines 105-114): 1 when there are no
pagination items, else `parseInt(label, 10)` of the last item's label when
finite, else 1. -/
def findPageCount (doc : Html) : Int :=
  match (paginateItems doc).getLast? with
  | none => 1
  | some last =>
    match parseIntJs10 (paginationLabelOf last) with
    | some n => n
    | none => 1

/-- The label of the last pagination control, if pagination markup is
present at all. -/
def lastPaginationLabel (doc : Html) : Option String :=
  (paginateItems doc).getLast?.map paginationLabelOf

/-- The amended page-count contract, stated from the spec's words minus
the refuted "at least 1" bound: 1 when pagination markup is absent,
otherwise the integer parsed from the label of the last pagination
control, defaulting to 1 when that label is unparseable. -/
def pageCountSpec (doc : Html) : Int :=
  match lastPaginationLabel doc with
  | none => 1
  | some t => (parseIntJs10 t).getD 1

/-- The orchestrator's slug collection (source lines 262-278): one shared
`Set`, filled page by page with each page's parsed slugs, read out in
insertion order by `Array.from`. -/
def collectSlugs (pages : List Html) : List String :=
  pages.foldl
    (fun acc page => (parseListPageForSlugs page).foldl addUnique acc) []

/-! ### Metadata response model and `extractDatesFromJsonWithTypes`
(source lines 140-192) -/

/-- One entry of a `release_dates` array.  `type` is `some t` when
`Number(rd.type)` is a finite number `t` and `none` otherwise (the
release-type codes in this system are integers). -/
structure ReleaseDateRecord where
  type : Option Int
  release_date : Option String
deriving DecidableEq, Repr

/-- One per-country entry of the metadata response.  Optional fields model
absent or null JSON members; `release_dates := none` models a value that is
not an array. -/
structure CountryEntry where
  iso_3166_1 : Option String
  release_dates : Option (List ReleaseDateRecord)
deriving DecidableEq, Repr

/-- The metadata response body; `results := none` models an absent or null
`results` member. -/
structure TmdbResponse where
  results : Option (List CountryEntry)
deriving DecidableEq, Repr

/-- Return value of `extractDatesFromJsonWithTypes`. -/
structure ExtractedDates where
  country_earliest : Option String
  country_earliest_type : Option Int
  type4_earliest_any_iso : Option String
  type4_type : Option Int
deriving DecidableEq, Repr

/-- The allow-list test of source lines 155-157: an event is rejected
exactly when an allow-list is present, the event's type is a finite
number, and that type is not in the allow-list. -/
def allowRejects (allowed : Option (List Int)) (t : Option Int) : Bool :=
  match allowed, t with
  | some l, some ty => !(l.contains ty)
  | _, _ => false

/-- The guards of the country loop (source lines 152-160) applied to one
event: skip when `release_date` is falsy, skip when the allow-list rejects
the type, then the regex match; returns the matched ISO date when the
event survives. -/
def rdPasses (allowed : Option (List Int)) (rd : ReleaseDateRecord) :
    Option String :=
  match rd.release_date with
  | none => none
  | some s =>
    if s = ("") then none
    else if allowRejects allowed rd.type then none
    else findIsoDate s

/-- One iteration of the country loop (source lines 161-164): keep the
lexicographically smallest matched date together with its type. -/
def countryStep (allowed : Option (List Int))
    (acc : Option String × Option Int) (rd : ReleaseDateRecord) :
    Option String × Option Int :=
  match rdPasses allowed rd with
  | none => acc
  | some d =>
    match acc.1 with
    | none => (some d, rd.type)
    | some b => if clLt d.toList b.toList then (some d, rd.type) else acc

/-- The country loop of source lines 152-165. -/
def countryBest (allowed : Option (List Int))
    (rds : List ReleaseDateRecord) : Option String × Option Int :=
  rds.foldl (countryStep allowed) (none, none)

/-- One iteration of the type-4 loop (source lines 173-181): only events
whose type is exactly 4 count, regardless of any allow-list. -/
def type4Step (acc : Option String) (rd : ReleaseDateRecord) :
    Option String :=
  if rd.type = some 4 then
    match rd.release_date with
    | none => acc
    | some s =>
      if s = ("") then acc
      else
        match findIsoDate s with
        | none => acc
        | some d =>
          match acc with
          | none => some d
          | some b => if clLt d.toList b.toList then some d else acc
  else acc

/-- The type-4 scan over all country entries (source lines 171-182);
`(r.release_dates || [])` reads as `getD []`. -/
def type4Best (results : List CountryEntry) : Option String :=
  results.foldl
    (fun a r => (r.release_dates.getD []).foldl type4Step a) none

/-- The country half of the extraction (source lines 148-166): find the
entry whose country code matches case-insensitively, then run the country
loop over its `release_dates` when that member is an array. -/
def countryPart (results : List CountryEntry) (countryIso : String)
    (allowed : Option (List Int)) : Option String × Option Int :=
  match results.find?
      (fun r => jsToUpper (r.iso_3166_1.getD ("")) == jsToUpper countryIso)
    with
  | some e =>
    match e.release_dates with
    | some rds => countryBest allowed rds
    | none => (none, none)
  | none => (none, none)

/-- Model of `extractDatesFromJsonWithTypes` (source lines 140-192).
`json = none` models a null argument and `results = none` a missing
`results` member, both caught by the initial guard. -/
def extractDatesFromJsonWithTypes (json : Option TmdbResponse)
    (countryIso : String) (allowedTypesForCountry : Option (List Int)) :
    ExtractedDates :=
  match json with
  | none => ⟨none, none, none, none⟩
  | some j =>
    match j.results with
    | none => ⟨none, none, none, none⟩
    | some results =>
      let best := countryPart results countryIso allowedTypesForCountry
      let t4 := ddmmIfTruthy (type4Best results)
      ⟨ddmmIfTruthy best.1, best.2, t4,
       match t4 with
       | some s => if s = ("") then none else some 4
       | none => none⟩

/-! ### Item-detail parsing (source lines 116-124 and 194-203) -/

/-- Model of `extractTmdbFromFilmHtml` (source lines 116-124): first
element carrying `data-tmdb-id`, its raw value when truthy, parsed with
`parseInt(trim(raw), 10)`; a non-finite parse yields null. -/
def extractTmdbFromFilmHtml (doc : Html) : Option Int :=
  match (doc.allNodes.filter
      (fun el => (el.attr ("data-tmdb-id")).isSome)).head? with
  | none => none
  | some el =>
    match el.attr ("data-tmdb-id") with
    | none => none
    | some raw => if raw = ("") then none else parseIntJs10 (jsTrim raw)

/-- JavaScript `x || y` on strings. -/
def jsOrStr (a b : String) : String :=
  if a = ("") then b else a

/-- JavaScript `x || y` where `x` is an undefined-or-string value. -/
def jsOrOpt (a b : Option String) : Option String :=
  match a with
  | some s => if s = ("") then b else some s
  | none => b

/-- Attribute-equality selector part `[k="v"]`. -/
def attrEquals (el : Html) (k v : String) : Bool :=
  match el.attr k with
  | some x => x == v
  | none => false

/-- Text of the first element matching a predicate; an empty selection
has empty text. -/
def firstTextBy (doc : Html) (p : Html → Bool) : String :=
  match (doc.allNodes.filter p).head? with
  | some el => el.textOf
  | none => ("")

/-- The `content` attribute of the first `meta` whose attribute `k`
equals `og:title`. -/
def ogTitleBy (doc : Html) (k : String) : Option String :=
  match (doc.allNodes.filter
      (fun el => el.tagIs ("meta") && attrEquals el k ("og:title"))).head? with
  | some el => el.attr ("content")
  | none => none

/-- Source line 196: the social-preview title, preferring
`meta[property="og:title"]` over `meta[name="og:title"]`. -/
def metaOgTitle (doc : Html) : Option String :=
  jsOrOpt (ogTitleBy doc ("property")) (ogTitleBy doc ("name"))

/-- Scanner for the trailing-parenthesis strip: walking right-to-left
from the final `)`, remember what lies beyond the leftmost `(` seen so
far (with the whitespace run before it removed) and stop at any other
`)`. -/
def stripScan : List Char → Option (List Char) → Option (List Char)
  | [], found => found
  | c :: t, found =>
    if c = (')') then found
    else if c = ('(') then stripScan t (some (t.dropWhile Char.isWhitespace))
    else stripScan t found

/-- Models `title.replace(/\s*\([^\)]*\)\s*$/, '')` (source line 201):
remove one trailing parenthesized group whose content has no `)`,
together with the whitespace around it; with leftmost-match semantics the
`(` used is the leftmost one having no `)` between it and the final `)`. -/
def stripTrailingParen (s : String) : String :=
  match (s.toList.reverse).dropWhile Char.isWhitespace with
  | ')' :: rest =>
    match stripScan rest none with
    | some rem => String.mk rem.reverse
    | none => s
  | _ => s

/-- The fallback chain of source line 199: first `h1[itemprop="name"]`,
then the first `h1`, then the first `h2`, each trimmed, else empty. -/
def fallbackTitle (doc : Html) : String :=
  jsOrStr
    (jsTrim (firstTextBy doc
      (fun el => el.tagIs ("h1") && attrEquals el ("itemprop") ("name"))))
    (jsOrStr (jsTrim (firstTextBy doc (fun el => el.tagIs ("h1"))))
      (jsTrim (firstTextBy doc (fun el => el.tagIs ("h2")))))

/-- Model of `extractCleanTitleFromHtml` (source lines 194-203). -/
def extractCleanTitleFromHtml (doc : Html) : Option String :=
  let titleA := jsTrim ((metaOgTitle doc).getD (""))
  let title1 := if titleA = ("") then fallbackTitle doc else titleA
  let title2 := jsTrim (stripTrailingParen title1)
  if title2 = ("") then none else some title2

/-! ### Output records and the final sort (source lines 283-288, 332-344)

`results.sort(...)` uses `Array.prototype.sort`, a stable sort driven by
the comparator of lines 340-344; it is modelled as a stable insertion
sort with the same comparator.  `localeCompare` is locale-dependent, so
the display-name comparison is a parameter `nameCmp` of the model; the
theorems assume only the consistency properties every collator has. -/

/-- The per-film output record initialised at source lines 284-288.  The
`error` list is absent until first pushed to; the empty list models
absence. -/
structure FilmResult where
  film_query : String
  film_name : Option String
  tmdb_id : Option Int
  country_release : Option String
  country_release_type : Option Int
  digital_release : Option String
  digital_release_type : Option Int
  error : List String
deriving DecidableEq, Repr

/-- Models `s.split('-')` on char lists (accumulator reversed). -/
def splitOnDashGo (cur : List Char) : List Char → List (List Char)
  | [] => [cur.reverse]
  | c :: t =>
    if c = '-' then cur.reverse :: splitOnDashGo [] t
    else splitOnDashGo (c :: cur) t

/-- Models `Number(s)` on the strings `dateKey` builds from its date
arguments: the empty string is 0, a decimal digit string is its value and
anything else is NaN (`none`).  The date strings reaching `dateKey` in
this pipeline are `isoToDDMM` outputs, whose reversed dash-join is always
a digit string. -/
def jsNumberVal (s : String) : Option Int :=
  let cs := s.toList
  if cs.isEmpty then some 0
  else if cs.all Char.isDigit then some ((digitsVal cs : Nat) : Int)
  else none

/-- Models `dateKey` (source line 333): `Number.MAX_SAFE_INTEGER` for an
absent date, otherwise `Number(d.split('-').reverse().join(''))`; `none`
models a NaN key. -/
def dateKey (d : Option String) : Option Int :=
  match d with
  | none => some 9007199254740991
  | some s =>
    jsNumberVal
      (String.mk
        (((splitOnDashGo [] s.toList).reverse).foldl (fun a b => a ++ b) []))

/-- Models `earliestKey` (source lines 334-338): `Math.min` of the two
keys, propagating NaN. -/
def earliestKey (it : FilmResult) : Option Int :=
  match dateKey it.country_release, dateKey it.digital_release with
  | some a, some b => some (min a b)
  | _, _ => none

/-- The comparator of source lines 340-344: key difference when the keys
differ, locale comparison of the display names (null reads as "") on a
tie.  When a key is NaN the JavaScript comparator returns NaN, which
`Array.prototype.sort` treats as 0. -/
def sortCompare (nameCmp : String → String → Int) (a b : FilmResult) :
    Int :=
  match earliestKey a, earliestKey b with
  | some ka, some kb =>
    if ka = kb then nameCmp (a.film_name.getD ("")) (b.film_name.getD (""))
    else ka - kb
  | _, _ => 0

/-- Stable insertion of `a` before the first element it does not compare
after. -/
def insertByCompare (nameCmp : String → String → Int) (a : FilmResult) :
    List FilmResult → List FilmResult
  | [] => [a]
  | b :: l =>
    if sortCompare nameCmp a b ≤ 0 then a :: b :: l
    else b :: insertByCompare nameCmp a l

/-- Models `results.sort(comparator)`: a stable sort by the comparator,
realised as stable insertion sort. -/
def sortFilms (nameCmp : String → String → Int) (l : List FilmResult) :
    List FilmResult :=
  l.foldr (insertByCompare nameCmp) []

/-- A date string as the pipeline produces it: `dd-mm-yyyy` over decimal
digits (the exact shape of every `isoToDDMM` output). -/
def wfDateStr (s : String) : Bool :=
  match s.toList with
  | [d1, d2, '-', m1, m2, '-', y1, y2, y3, y4] =>
    ([d1, d2, m1, m2, y1, y2, y3, y4]).all Char.isDigit
  | _ => false

/-- A date field as the pipeline produces it: absent or well-formed. -/
def wfDate (d : Option String) : Bool :=
  match d with
  | none => true
  | some s => wfDateStr s

/-- A record whose two date fields are as the pipeline produces them. -/
def wfFilm (it : FilmResult) : Bool :=
  wfDate it.country_release && wfDate it.digital_release

/-- The ordering the specification describes for the output: strictly
smaller minimum-date key first, display-name order on equal keys, an
absent date counting as the maximum possible key. -/
def claimLe (nameCmp : String → String → Int) (a b : FilmResult) : Prop :=
  ∃ ka kb : Int, earliestKey a = some ka ∧ earliestKey b = some kb
    ∧ (ka < kb ∨ (ka = kb
        ∧ nameCmp (a.film_name.getD ("")) (b.film_name.getD ("")) ≤ 0))

/-- The spec example's record dated 01-01-2020. -/
def filmA : FilmResult :=
  ⟨("a"), none, none, some ("01-01-2020"), none, none, none, []⟩

/-- The spec example's record dated 05-05-2019. -/
def filmB : FilmResult :=
  ⟨("b"), none, none, some ("05-05-2019"), none, none, none, []⟩

/-- The spec example's dateless record named "Aardvark". -/
def filmC : FilmResult :=
  ⟨("c"), some ("Aardvark"), none, none, none, none, none, []⟩

/-- The worked metadata response of the specification:
US has a type-3 event on 2021-05-01 and a type-4 event on 2021-04-10,
GB has a type-4 event on 2021-03-01. -/
def specJson : TmdbResponse :=
  ⟨some [⟨some ("US"),
          some [⟨some 3, some ("2021-05-01")⟩,
                ⟨some 4, some ("2021-04-10")⟩]⟩,
         ⟨some ("GB"),
          some [⟨some 4, some ("2021-03-01")⟩]⟩]⟩

/-! ### The bounded-concurrency executor `asyncMapLimit`
(source lines 205-226)

The JavaScript event loop interleaves the workers at their `await`
points.  A worker claims the next index and increments the shared counter
synchronously, then suspends awaiting the mapper, then stores the
result (or the caught error record) at its claimed index.  This is
modelled as a labelled transition system over pool states: a `claim`
step performs `const i = idx++` with `i` in range, an `exit` step
performs it with `i` out of range and returns, and a `finish` step stores
the outcome of the claimed index and loops.  Any interleaving of workers
is a path of this relation; a run of `asyncMapLimit` is a maximal path
(every worker has returned). -/

/-- What one cell of `results` ends up holding: the mapper's resolved
value, or the `{error: message}` record built by the catch at source
line 216. -/
inductive MapResult (β : Type) where
  | ok (b : β)
  | errRec (msg : String)
deriving DecidableEq, Repr

/-- The value stored for index `i`: the mapper's result on `inputs[i]`
and `i`, with a thrown error converted to the error record.  Workers
only claim indices below `inputs.length`, so the out-of-range arm is
never exercised. -/
def taskOutcome {α β : Type} (mapper : α → Nat → Except String β)
    (inputs : List α) (i : Nat) : MapResult β :=
  match inputs.get? i with
  | some a =>
    match mapper a i with
    | .ok b => .ok b
    | .error e => .errRec e
  | none => .errRec ("")

/-- Where one worker stands in its `while (true)` loop. -/
inductive WorkerStatus where
  | idle
  | busy (i : Nat)
  | done
deriving DecidableEq, Repr

/-- The shared state of one `asyncMapLimit` run: the claim counter, the
results array (`none` = still a hole) and each worker's position. -/
structure PoolState (β : Type) where
  idx : Nat
  results : List (Option (MapResult β))
  workers : List WorkerStatus

/-- The state before any worker runs: counter 0, a hole per input,
`Math.min(limit, inputs.length || 1)` idle workers (source lines
206-223). -/
def initPool (β : Type) (len limit : Nat) : PoolState β :=
  ⟨0, List.replicate len none,
   List.replicate (min limit (if len = 0 then 1 else len))
     WorkerStatus.idle⟩

/-- One scheduler step of the pool: an idle worker claims the next index
(incrementing the counter) and either starts the mapper or returns, or a
busy worker's mapper settles and the worker stores the outcome. -/
inductive PoolStep {β : Type} (len : Nat) (outcome : Nat → MapResult β) :
    PoolState β → PoolState β → Prop where
  | claim : ∀ (s : PoolState β) (w : Nat),
      s.workers.get? w = some WorkerStatus.idle → s.idx < len →
      PoolStep len outcome s
        ⟨s.idx + 1, s.results, s.workers.set w (WorkerStatus.busy s.idx)⟩
  | exit : ∀ (s : PoolState β) (w : Nat),
      s.workers.get? w = some WorkerStatus.idle → len ≤ s.idx →
      PoolStep len outcome s
        ⟨s.idx + 1, s.results, s.workers.set w WorkerStatus.done⟩
  | finish : ∀ (s : PoolState β) (w i : Nat),
      s.workers.get? w = some (WorkerStatus.busy i) →
      PoolStep len outcome s
        ⟨s.idx, s.results.set i (some (outcome i)),
         s.workers.set w WorkerStatus.idle⟩

/-- The run is over: every worker has returned, so `Promise.all`
resolves. -/
def PoolDone {β : Type} (s : PoolState β) : Prop :=
  ∀ w ∈ s.workers, w = WorkerStatus.done

/-- The run invariant: the results array keeps its length, the worker
pool keeps its size, a busy index is in range and below the counter,
every claimed in-range index is either being worked on or already holds
its outcome, and once any worker has returned the counter has passed the
end. -/
structure PoolInv {β : Type} (len : Nat) (outcome : Nat → MapResult β)
    (nw : Nat) (s : PoolState β) : Prop where
  res_len : s.results.length = len
  w_len : s.workers.length = nw
  busy_lt : ∀ w i : Nat, s.workers.get? w = some (WorkerStatus.busy i) →
    i < len ∧ i < s.idx
  claimed : ∀ j : Nat, j < s.idx → j < len →
    (∃ w : Nat, s.workers.get? w = some (WorkerStatus.busy j))
      ∨ s.results.get? j = some (some (outcome j))
  done_idx : ∀ w : Nat, s.workers.get? w = some WorkerStatus.done →
    len ≤ s.idx

/-! ### One task of the resolving fan-out (source lines 283-330) -/

/-- The film-page half of the task (source lines 284-302): the fresh
record, filled from the fetched page when the fetch succeeds — the title
when truthy, the catalogue id when truthy (so a parsed id of 0 is not
stored) — or carrying the fetch error message when it fails. -/
def pageResult (slug : String) (pageOutcome : Except String Html) :
    FilmResult :=
  match pageOutcome with
  | .ok doc =>
    ⟨slug,
     (match extractCleanTitleFromHtml doc with
      | some t => if t = ("") then none else some t
      | none => none),
     (match extractTmdbFromFilmHtml doc with
      | some n => if n = 0 then none else some n
      | none => none),
     none, none, none, none, []⟩
  | .error msg =>
    ⟨slug, none, none, none, none, none, none,
     [("failed fetching film page for ") ++ slug ++ (": ") ++ msg]⟩

/-- One task of the resolving fan-out (source lines 283-330).
`pageOutcome` is what `fetchHtml(filmUrl)` does (the parsed film page, or
the thrown error's message); `tmdbOutcome` is what the metadata lookup
does when it is reached (the parsed response body, possibly null, or the
thrown error's message); `bearerPresent` is the truthiness of the
`TMDB_BEARER` environment variable.  The lookup runs only when a
catalogue id was stored and the credential is present; otherwise the
applicable skip message is appended. -/
def processItem (slug country : String) (allowed : Option (List Int))
    (bearerPresent : Bool) (pageOutcome : Except String Html)
    (tmdbOutcome : Except String (Option TmdbResponse)) : FilmResult :=
  let fr := pageResult slug pageOutcome
  match fr.tmdb_id, bearerPresent with
  | some id0, true =>
    match tmdbOutcome with
    | .ok json =>
      let ex := extractDatesFromJsonWithTypes json country allowed
      ⟨fr.film_query, fr.film_name, fr.tmdb_id,
       ex.country_earliest, ex.country_earliest_type,
       ex.type4_earliest_any_iso, ex.type4_type, fr.error⟩
    | .error msg =>
      ⟨fr.film_query, fr.film_name, fr.tmdb_id, fr.country_release,
       fr.country_release_type, fr.digital_release,
       fr.digital_release_type,
       fr.error ++ [("TMDB error for id ") ++ toString id0 ++ (": ") ++ msg]⟩
  | none, _ =>
    ⟨fr.film_query, fr.film_name, fr.tmdb_id, fr.country_release,
     fr.country_release_type, fr.digital_release, fr.digital_release_type,
     fr.error ++ [("tmdb_id not found on film page")]⟩
  | some _, false =>
    ⟨fr.film_query, fr.film_name, fr.tmdb_id, fr.country_release,
     fr.country_release_type, fr.digital_release, fr.digital_release_type,
     fr.error ++ [("TMDB_BEARER env missing; skipped TMDB lookup")]⟩

/-- A film page carrying only a catalogue identifier. -/
def filmPage8 : Html :=
  Html.elem ("body") [(("data-tmdb-id"), ("42"))] []

/-- The metadata response exercising an event with a non-finite type: the
US entry has an untyped event on 2021-01-01 and a type-3 event on
2021-06-01. -/
def c10Json : TmdbResponse :=
  ⟨some [⟨some ("US"),
          some [⟨none, some ("2021-01-01")⟩,
                ⟨some 3, some ("2021-06-01")⟩]⟩]⟩

/-! ### The resilient fetcher `fetchWithRetriesRaw` (source lines 24-84)

The loop is modelled as a function of an outcome oracle giving, for each
attempt number, what the underlying `fetch` call does: succeed, resolve
with a non-2xx status and a body text, or reject (network error or
timeout, whose caught error carries a message).  The random jitters
`Math.random() * 200` and `Math.random() * 300` are modelled as oracle
functions from the attempt number to the added delay. -/

/-- What one underlying fetch attempt does. -/
inductive AttemptResult where
  | success
  | httpFail (status : Int) (body : String)
  | netFail (msg : String)
deriving DecidableEq, Repr

/-- Final outcome of the retry loop: the attempt number that succeeded, or
the thrown error message. -/
inductive FetchResult where
  | ok (attempt : Nat)
  | err (msg : String)
deriving DecidableEq, Repr

/-- Observable behaviour of one run of the retry loop: its outcome, how
many attempts were made, and the list of delays slept between attempts. -/
structure FetchTrace where
  result : FetchResult
  attempts : Nat
  sleeps : List Nat
deriving DecidableEq, Repr

/-- Models `body.slice(0, 200)`. -/
def jsSlice200 (s : String) : String :=
  String.mk (s.toList.take 200)

/-- The non-2xx error message built at source line 65. -/
def httpErrMsg (proxyConfigured : Bool) (url : String) (status : Int)
    (body : String) : String :=
  ("HTTP ") ++ toString status ++ (" for ") ++ url ++ (" (proxy=")
    ++ (if proxyConfigured then ("true") else ("false"))
    ++ ("). Response snippet: ") ++ jsSlice200 body

/-- The wrapping error message built at source line 75. -/
def wrapMsg (url : String) (attempt : Nat) (cause : String) : String :=
  ("fetchWithRetries failed for ") ++ url ++ (" after ")
    ++ toString attempt ++ (" attempts: ") ++ cause

/-- The 403/429 backoff of source line 59: `Math.min(4000, 300 * 2 ** attempt)`. -/
def rateLimitBackoff (attempt : Nat) : Nat :=
  min 4000 (300 * 2 ^ attempt)

/-- The catch-branch backoff of source line 79: `Math.min(8000, 300 * 2 ** attempt)`. -/
def catchBackoff (attempt : Nat) : Nat :=
  min 8000 (300 * 2 ^ attempt)

/-- The body of the `while (true)` loop of source lines 30-83, entered
with the already-incremented attempt counter `a`.  A non-ok response with
status 403 or 429 and attempts to spare sleeps the rate-limit backoff and
continues; any other non-ok response throws the HTTP error, which the
catch either wraps (no attempts left) or absorbs with the catch backoff;
a rejected fetch behaves like the catch on its message. -/
def fetchGo (proxyConfigured : Bool) (url : String)
    (outcome : Nat → AttemptResult) (jRate jCatch : Nat → Nat)
    (maxAttempts : Nat) (a : Nat) : FetchTrace :=
  match outcome a with
  | .success => ⟨.ok a, a, []⟩
  | .httpFail status body =>
    if h : (status = 403 ∨ status = 429) ∧ a < maxAttempts then
      let t := fetchGo proxyConfigured url outcome jRate jCatch maxAttempts
        (a + 1)
      ⟨t.result, t.attempts, (rateLimitBackoff a + jRate a) :: t.sleeps⟩
    else if h2 : a < maxAttempts then
      let t := fetchGo proxyConfigured url outcome jRate jCatch maxAttempts
        (a + 1)
      ⟨t.result, t.attempts, (catchBackoff a + jCatch a) :: t.sleeps⟩
    else
      ⟨.err (wrapMsg url a (httpErrMsg proxyConfigured url status body)),
       a, []⟩
  | .netFail m =>
    if h : a < maxAttempts then
      let t := fetchGo proxyConfigured url outcome jRate jCatch maxAttempts
        (a + 1)
      ⟨t.result, t.attempts, (catchBackoff a + jCatch a) :: t.sleeps⟩
    else ⟨.err (wrapMsg url a m), a, []⟩
termination_by maxAttempts + 1 - a
decreasing_by all_goals omega

/-- Model of `fetchWithRetriesRaw`: the loop starts with `attempt = 0`
and increments on entry, so the first iteration runs with counter 1. -/
def fetchWithRetriesRaw (proxyConfigured : Bool) (url : String)
    (outcome : Nat → AttemptResult) (jRate jCatch : Nat → Nat)
    (maxAttempts : Nat) : FetchTrace :=
  fetchGo proxyConfigured url outcome jRate jCatch maxAttempts 1

/-- The cause string wrapped by the final error: the HTTP error message
for a non-2xx response, the caught error's message for a rejection. -/
def failCause (proxyConfigured : Bool) (url : String) :
    AttemptResult → String
  | .success => ("")
  | .httpFail status body => httpErrMsg proxyConfigured url status body
  | .netFail m => m

/-- The per-attempt delay formula the code actually implements: rate-limit
backoff plus its jitter after a 403/429 response, catch backoff plus its
jitter after any other failure. -/
def delayFormula (oc : Nat → AttemptResult) (jR jC : Nat → Nat) (k : Nat) :
    Nat :=
  match oc k with
  | .httpFail st _ =>
    if st = 403 ∨ st = 429 then rateLimitBackoff k + jR k
    else catchBackoff k + jC k
  | .netFail _ => catchBackoff k + jC k
  | .success => 0

/-- C1: on the spec's example response with target country "US" and no
allow-list, the extraction returns country result "10-04-2021" with type
code 4 and digital result "01-03-2021" with type code 4. -/
theorem c1_extract_spec_example :
    extractDatesFromJsonWithTypes (some specJson) ("US") none =
      ⟨some ("10-04-2021"), some 4, some ("01-03-2021"), some 4⟩ := by
  decide

/-! ### Lemmas about the country loop -/

/-- A successful step never discards an already-found best date. -/
theorem countryStep_fst_isSome (allowed : Option (List Int))
    (acc : Option String × Option Int) (rd : ReleaseDateRecord)
    (h : acc.1.isSome = true) :
    ((countryStep allowed acc rd).1).isSome = true := by
  unfold countryStep
  cases hp : rdPasses allowed rd with
  | none => exact h
  | some d =>
    cases hb : acc.1 with
    | none => simp [hb] at h
    | some b => simp only [hb]; split <;> simp [hb]

/-- The country fold never reverts a found best date to `none`. -/
theorem countryFold_fst_isSome (allowed : Option (List Int))
    (rds : List ReleaseDateRecord) (acc : Option String × Option Int)
    (h : acc.1.isSome = true) :
    ((rds.foldl (countryStep allowed) acc).1).isSome = true := by
  induction rds generalizing acc with
  | nil => exact h
  | cons rd rest ih =>
    exact ih _ (countryStep_fst_isSome allowed acc rd h)

/-- After stepping with an event that passes the guards, the best date is
present. -/
theorem countryStep_pass_isSome (allowed : Option (List Int))
    (acc : Option String × Option Int) (rd : ReleaseDateRecord) (d : String)
    (h : rdPasses allowed rd = some d) :
    ((countryStep allowed acc rd).1).isSome = true := by
  unfold countryStep
  rw [h]
  cases hb : acc.1 with
  | none => simp
  | some b => simp only; split <;> simp [hb]

/-- If some event of the list passes the guards, the country fold finds a
best date. -/
theorem countryFold_isSome_of_pass (allowed : Option (List Int))
    (rds : List ReleaseDateRecord) (acc : Option String × Option Int)
    (rd : ReleaseDateRecord) (d : String) (hmem : rd ∈ rds)
    (h : rdPasses allowed rd = some d) :
    ((rds.foldl (countryStep allowed) acc).1).isSome = true := by
  induction rds generalizing acc with
  | nil => cases hmem
  | cons rd0 rest ih =>
    rcases List.mem_cons.mp hmem with rfl | hmem'
    · exact countryFold_fst_isSome allowed rest _
        (countryStep_pass_isSome allowed acc rd d h)
    · exact ih _ hmem'

/-- The recorded best type always comes from an event the allow-list
accepted: when the fold's accumulator respects the allow-list, so does its
result. -/
theorem countryFold_type_mem (l : List Int)
    (rds : List ReleaseDateRecord) (acc : Option String × Option Int)
    (hacc : ∀ t : Int, acc.2 = some t → t ∈ l) :
    ∀ t : Int, ((rds.foldl (countryStep (some l)) acc).2 = some t → t ∈ l) := by
  induction rds generalizing acc with
  | nil => exact hacc
  | cons rd rest ih =>
    refine ih _ ?_
    intro t ht
    unfold countryStep at ht
    cases hp : rdPasses (some l) rd with
    | none => rw [hp] at ht; exact hacc t ht
    | some d =>
      rw [hp] at ht
      have htype : ∀ u : Int, rd.type = some u → u ∈ l := by
        intro u hu
        unfold rdPasses at hp
        cases hrd : rd.release_date with
        | none => rw [hrd] at hp; cases hp
        | some s =>
          rw [hrd] at hp
          by_cases hs : s = ("")
          · simp [hs] at hp
          · simp only [hs, if_false] at hp
            by_cases hrej : allowRejects (some l) rd.type = true
            · simp [hrej] at hp
            · unfold allowRejects at hrej
              rw [hu] at hrej
              simpa using hrej
      cases hb : acc.1 with
      | none =>
        simp only [hb] at ht
        exact htype t ht
      | some b =>
        simp only [hb] at ht
        by_cases hlt : clLt d.toList b.toList = true
        · simp only [hlt, if_true] at ht
          exact htype t ht
        · simp only [hlt, if_false] at ht
          exact hacc t ht

/-- The country-type component of `countryPart` under an allow-list is a
member of the allow-list whenever it is present. -/
theorem countryPart_type_mem (results : List CountryEntry) (c : String)
    (l : List Int) (t : Int)
    (h : (countryPart results c (some l)).2 = some t) : t ∈ l := by
  unfold countryPart at h
  split at h
  · split at h
    · exact countryFold_type_mem l _ (none, none) (by intro u hu; cases hu) t h
    · cases h
  · cases h

/-- The digital (type-4) components of the extraction do not depend on the
allow-list argument. -/
theorem extract_type4_ignores_allowlist (json : Option TmdbResponse)
    (c : String) (a b : Option (List Int)) :
    (extractDatesFromJsonWithTypes json c a).type4_earliest_any_iso
        = (extractDatesFromJsonWithTypes json c b).type4_earliest_any_iso
    ∧ (extractDatesFromJsonWithTypes json c a).type4_type
        = (extractDatesFromJsonWithTypes json c b).type4_type := by
  cases json with
  | none => exact ⟨rfl, rfl⟩
  | some j =>
    cases j with
    | mk res =>
      cases res with
      | none => exact ⟨rfl, rfl⟩
      | some results => exact ⟨rfl, rfl⟩

/-- C2: an allow-list restricts only the country-earliest computation —
whenever the country result carries a type code it belongs to the
allow-list; the digital result equals the digital result computed with no
allow-list; and on the spec's example the allow-list `[3]` yields country
result "01-05-2021" with type 3 while the digital result is unchanged. -/
theorem c2_allowlist_only_restricts_country (json : Option TmdbResponse)
    (c : String) (l : List Int) :
    ((extractDatesFromJsonWithTypes json c (some l)).type4_earliest_any_iso
        = (extractDatesFromJsonWithTypes json c none).type4_earliest_any_iso
      ∧ (extractDatesFromJsonWithTypes json c (some l)).type4_type
        = (extractDatesFromJsonWithTypes json c none).type4_type)
    ∧ (∀ t : Int,
        (extractDatesFromJsonWithTypes json c (some l)).country_earliest_type
          = some t → t ∈ l)
    ∧ extractDatesFromJsonWithTypes (some specJson) ("US") (some [3])
        = ⟨some ("01-05-2021"), some 3, some ("01-03-2021"), some 4⟩ := by
  refine ⟨extract_type4_ignores_allowlist json c (some l) none, ?_, by decide⟩
  intro t ht
  cases json with
  | none => cases ht
  | some j =>
    cases j with
    | mk res =>
      cases res with
      | none => cases ht
      | some results =>
        exact countryPart_type_mem results c l t ht

/-- Closed instance of C2's theorem at the spec's example data. -/
theorem c2_allowlist_witness :
    (((extractDatesFromJsonWithTypes (some specJson) ("US")
          (some [3])).type4_earliest_any_iso
        = (extractDatesFromJsonWithTypes (some specJson) ("US")
            none).type4_earliest_any_iso
      ∧ (extractDatesFromJsonWithTypes (some specJson) ("US")
            (some [3])).type4_type
        = (extractDatesFromJsonWithTypes (some specJson) ("US")
            none).type4_type)
    ∧ (∀ t : Int,
        (extractDatesFromJsonWithTypes (some specJson) ("US")
            (some [3])).country_earliest_type = some t → t ∈ [3])
    ∧ extractDatesFromJsonWithTypes (some specJson) ("US") (some [3])
        = ⟨some ("01-05-2021"), some 3, some ("01-03-2021"), some 4⟩) :=
  c2_allowlist_only_restricts_country (some specJson) ("US") [3]

/-- C10: an event whose type is not a finite number is never excluded by
the allow-list filter — its guard outcome equals the no-allow-list
outcome, it keeps the country computation eligible, and on a concrete
response it supplies a non-null country date with a null type code. -/
theorem c10_untyped_event_bypasses_allowlist (l : List Int)
    (rd : ReleaseDateRecord) (hty : rd.type = none) :
    rdPasses (some l) rd = rdPasses none rd
    ∧ (∀ rds : List ReleaseDateRecord, ∀ d : String, rd ∈ rds →
        rdPasses (some l) rd = some d →
        ((countryBest (some l) rds).1).isSome = true)
    ∧ extractDatesFromJsonWithTypes (some c10Json) ("US") (some [3])
        = ⟨some ("01-01-2021"), none, none, none⟩ := by
  refine ⟨?_, ?_, by decide⟩
  · unfold rdPasses allowRejects
    rw [hty]
  · intro rds d hmem hpass
    exact countryFold_isSome_of_pass (some l) rds (none, none) rd d hmem hpass

/-- The loop never terminates before the attempt counter it was entered
with. -/
theorem fetchGo_attempts_ge (p : Bool) (u : String)
    (oc : Nat → AttemptResult) (jR jC : Nat → Nat) (max : Nat) :
    ∀ n a, max + 1 - a = n →
      a ≤ (fetchGo p u oc jR jC max a).attempts := by
  intro n
  induction n with
  | zero =>
    intro a hn
    unfold fetchGo
    split
    · exact Nat.le_refl a
    · split
      · omega
      · split
        · omega
        · exact Nat.le_refl a
    · split
      · omega
      · exact Nat.le_refl a
  | succ n ih =>
    intro a hn
    unfold fetchGo
    split
    · exact Nat.le_refl a
    · split
      · exact Nat.le_trans (Nat.le_succ a) (ih (a + 1) (by omega))
      · split
        · exact Nat.le_trans (Nat.le_succ a) (ih (a + 1) (by omega))
        · exact Nat.le_refl a
    · split
      · exact Nat.le_trans (Nat.le_succ a) (ih (a + 1) (by omega))
      · exact Nat.le_refl a

/-- The loop never runs more than `maxAttempts` attempts, provided it is
entered with a counter of at most `maxAttempts`. -/
theorem fetchGo_attempts_le (p : Bool) (u : String)
    (oc : Nat → AttemptResult) (jR jC : Nat → Nat) (max : Nat) :
    ∀ n a, max + 1 - a = n → a ≤ max →
      (fetchGo p u oc jR jC max a).attempts ≤ max := by
  intro n
  induction n with
  | zero => intro a hn ha; omega
  | succ n ih =>
    intro a hn ha
    unfold fetchGo
    split
    · exact ha
    · split
      · rename_i hcond
        exact ih (a + 1) (by omega) (by omega)
      · split
        · rename_i hcond h2
          exact ih (a + 1) (by omega) (by omega)
        · exact ha
    · split
      · rename_i hcond
        exact ih (a + 1) (by omega) (by omega)
      · exact ha

/-- Characterization of a run against a target that answers every attempt
with the same retryable rate-limit status (403 or 429): the loop makes
exactly `maxAttempts` attempts, sleeps the rate-limit backoff between
them, and ends with the wrapped error naming the URL, the attempt count
and the final HTTP error. -/
theorem fetchGo_always_rate (p : Bool) (u body : String) (st : Int)
    (oc : Nat → AttemptResult) (jR jC : Nat → Nat) (max : Nat)
    (hst : st = 403 ∨ st = 429)
    (hoc : ∀ k, oc k = AttemptResult.httpFail st body) :
    ∀ n a, max + 1 - a = n → 1 ≤ a → a ≤ max →
      fetchGo p u oc jR jC max a =
        ⟨FetchResult.err (wrapMsg u max (httpErrMsg p u st body)), max,
         (List.range' a (max - a)).map
           (fun k => rateLimitBackoff k + jR k)⟩ := by
  intro n
  induction n with
  | zero => intro a hn h1 ha; omega
  | succ n ih =>
    intro a hn h1 ha
    unfold fetchGo
    rw [hoc a]
    dsimp only
    by_cases hlt : a < max
    · rw [dif_pos ⟨hst, hlt⟩]
      rw [ih (a + 1) (by omega) (by omega) (by omega)]
      have hr : List.range' a (max - a) = a :: List.range' (a + 1) (max - (a + 1)) := by
        have h3 : max - a = (max - (a + 1)) + 1 := by omega
        rw [h3, List.range'_succ]
      rw [hr]
      rfl
    · have hax : a = max := by omega
      subst hax
      rw [dif_neg (by simp)]
      rw [dif_neg (by simp)]
      simp

/-- Characterization of a run against a target whose every attempt fails
in the catch (network error or timeout) with the same message: exactly
`maxAttempts` attempts, catch backoffs between them, wrapped error. -/
theorem fetchGo_always_net (p : Bool) (u m : String)
    (oc : Nat → AttemptResult) (jR jC : Nat → Nat) (max : Nat)
    (hoc : ∀ k, oc k = AttemptResult.netFail m) :
    ∀ n a, max + 1 - a = n → 1 ≤ a → a ≤ max →
      fetchGo p u oc jR jC max a =
        ⟨FetchResult.err (wrapMsg u max m), max,
         (List.range' a (max - a)).map
           (fun k => catchBackoff k + jC k)⟩ := by
  intro n
  induction n with
  | zero => intro a hn h1 ha; omega
  | succ n ih =>
    intro a hn h1 ha
    unfold fetchGo
    rw [hoc a]
    dsimp only
    by_cases hlt : a < max
    · rw [dif_pos hlt]
      rw [ih (a + 1) (by omega) (by omega) (by omega)]
      have hr : List.range' a (max - a) = a :: List.range' (a + 1) (max - (a + 1)) := by
        have h3 : max - a = (max - (a + 1)) + 1 := by omega
        rw [h3, List.range'_succ]
      rw [hr]
      rfl
    · have hax : a = max := by omega
      subst hax
      rw [dif_neg (by simp)]
      simp

/-- Characterization of a run against a target that answers every attempt
with the same non-2xx status other than 403 and 429: the thrown HTTP
error is absorbed by the catch, so the catch backoff is slept between the
`maxAttempts` attempts and the wrapped error carries the HTTP message. -/
theorem fetchGo_always_http_other (p : Bool) (u body : String) (st : Int)
    (oc : Nat → AttemptResult) (jR jC : Nat → Nat) (max : Nat)
    (hst : ¬(st = 403 ∨ st = 429))
    (hoc : ∀ k, oc k = AttemptResult.httpFail st body) :
    ∀ n a, max + 1 - a = n → 1 ≤ a → a ≤ max →
      fetchGo p u oc jR jC max a =
        ⟨FetchResult.err (wrapMsg u max (httpErrMsg p u st body)), max,
         (List.range' a (max - a)).map
           (fun k => catchBackoff k + jC k)⟩ := by
  intro n
  induction n with
  | zero => intro a hn h1 ha; omega
  | succ n ih =>
    intro a hn h1 ha
    unfold fetchGo
    rw [hoc a]
    dsimp only
    by_cases hlt : a < max
    · rw [dif_neg (by tauto)]
      rw [dif_pos hlt]
      rw [ih (a + 1) (by omega) (by omega) (by omega)]
      have hr : List.range' a (max - a) = a :: List.range' (a + 1) (max - (a + 1)) := by
        have h3 : max - a = (max - (a + 1)) + 1 := by omega
        rw [h3, List.range'_succ]
      rw [hr]
      rfl
    · have hax : a = max := by omega
      subst hax
      rw [dif_neg (by tauto)]
      rw [dif_neg (by simp)]
      simp

/-- General sleep-trace characterization: for every outcome oracle, the
delays slept are exactly `delayFormula` evaluated at the attempt numbers
that were followed by another attempt. -/
theorem fetchGo_sleeps (p : Bool) (u : String) (oc : Nat → AttemptResult)
    (jR jC : Nat → Nat) (max : Nat) :
    ∀ n a, max + 1 - a = n →
      (fetchGo p u oc jR jC max a).sleeps =
        (List.range' a ((fetchGo p u oc jR jC max a).attempts - a)).map
          (delayFormula oc jR jC) := by
  intro n
  induction n with
  | zero =>
    intro a hn
    unfold fetchGo
    cases hoc : oc a with
    | success => simp
    | httpFail st body =>
      dsimp only
      rw [dif_neg (by omega)]
      rw [dif_neg (by omega)]
      simp
    | netFail m =>
      dsimp only
      rw [dif_neg (by omega)]
      simp
  | succ n ih =>
    intro a hn
    have hge := fetchGo_attempts_ge p u oc jR jC max (max + 1 - (a + 1)) (a + 1) rfl
    unfold fetchGo
    cases hoc : oc a with
    | success => simp
    | httpFail st body =>
      dsimp only
      by_cases hcond : (st = 403 ∨ st = 429) ∧ a < max
      · rw [dif_pos hcond]
        have hr : List.range' a ((fetchGo p u oc jR jC max (a + 1)).attempts - a)
            = a :: List.range' (a + 1)
                ((fetchGo p u oc jR jC max (a + 1)).attempts - (a + 1)) := by
          have h3 : (fetchGo p u oc jR jC max (a + 1)).attempts - a
              = ((fetchGo p u oc jR jC max (a + 1)).attempts - (a + 1)) + 1 := by
            omega
          rw [h3, List.range'_succ]
        simp only [hr, List.map_cons]
        rw [← ih (a + 1) (by omega)]
        simp only [delayFormula, hoc, if_pos hcond.1]
      · rw [dif_neg hcond]
        by_cases h2 : a < max
        · rw [dif_pos h2]
          have hr : List.range' a ((fetchGo p u oc jR jC max (a + 1)).attempts - a)
              = a :: List.range' (a + 1)
                  ((fetchGo p u oc jR jC max (a + 1)).attempts - (a + 1)) := by
            have h3 : (fetchGo p u oc jR jC max (a + 1)).attempts - a
                = ((fetchGo p u oc jR jC max (a + 1)).attempts - (a + 1)) + 1 := by
              omega
            rw [h3, List.range'_succ]
          simp only [hr, List.map_cons]
          rw [← ih (a + 1) (by omega)]
          have hst : ¬(st = 403 ∨ st = 429) := by
            intro hx
            exact hcond ⟨hx, h2⟩
          simp only [delayFormula, hoc, if_neg hst]
        · rw [dif_neg h2]
          simp
    | netFail m =>
      dsimp only
      by_cases h2 : a < max
      · rw [dif_pos h2]
        have hr : List.range' a ((fetchGo p u oc jR jC max (a + 1)).attempts - a)
            = a :: List.range' (a + 1)
                ((fetchGo p u oc jR jC max (a + 1)).attempts - (a + 1)) := by
          have h3 : (fetchGo p u oc jR jC max (a + 1)).attempts - a
              = ((fetchGo p u oc jR jC max (a + 1)).attempts - (a + 1)) + 1 := by
            omega
          rw [h3, List.range'_succ]
        simp only [hr, List.map_cons]
        rw [← ih (a + 1) (by omega)]
        simp only [delayFormula, hoc]
      · rw [dif_neg h2]
        simp

/-- Closed instance of C10's theorem at a concrete untyped event. -/
theorem c10_untyped_event_witness :
    (rdPasses (some [3]) ⟨none, some ("2021-01-01")⟩
        = rdPasses none ⟨none, some ("2021-01-01")⟩
    ∧ (∀ rds : List ReleaseDateRecord, ∀ d : String,
        (⟨none, some ("2021-01-01")⟩ : ReleaseDateRecord) ∈ rds →
        rdPasses (some [3]) ⟨none, some ("2021-01-01")⟩ = some d →
        ((countryBest (some [3]) rds).1).isSome = true)
    ∧ extractDatesFromJsonWithTypes (some c10Json) ("US") (some [3])
        = ⟨some ("01-01-2021"), none, none, none⟩) :=
  c10_untyped_event_bypasses_allowlist [3] ⟨none, some ("2021-01-01")⟩ rfl

/-- Characterization of a run in which no attempt succeeds, whatever the
mix of failure kinds: exactly `maxAttempts` attempts, ending with the
wrapped error around the last attempt's cause. -/
theorem fetchGo_always_fail (p : Bool) (u : String)
    (oc : Nat → AttemptResult) (jR jC : Nat → Nat) (max : Nat)
    (hoc : ∀ k, ¬ oc k = AttemptResult.success) :
    ∀ n a, max + 1 - a = n → 1 ≤ a → a ≤ max →
      (fetchGo p u oc jR jC max a).result
        = FetchResult.err (wrapMsg u max (failCause p u (oc max)))
      ∧ (fetchGo p u oc jR jC max a).attempts = max := by
  intro n
  induction n with
  | zero => intro a hn h1 ha; omega
  | succ n ih =>
    intro a hn h1 ha
    by_cases hlt : a < max
    · unfold fetchGo
      cases hoca : oc a with
      | success => exact absurd hoca (hoc a)
      | httpFail st body =>
        dsimp only
        by_cases hcond : (st = 403 ∨ st = 429) ∧ a < max
        · rw [dif_pos hcond]
          exact ih (a + 1) (by omega) (by omega) (by omega)
        · rw [dif_neg hcond, dif_pos hlt]
          exact ih (a + 1) (by omega) (by omega) (by omega)
      | netFail m =>
        dsimp only
        rw [dif_pos hlt]
        exact ih (a + 1) (by omega) (by omega) (by omega)
    · have hax : a = max := by omega
      subst hax
      unfold fetchGo
      cases hoca : oc a with
      | success => exact absurd hoca (hoc a)
      | httpFail st body =>
        dsimp only
        rw [dif_neg (by omega), dif_neg (by omega)]
        exact ⟨rfl, rfl⟩
      | netFail m =>
        dsimp only
        rw [dif_neg (by omega)]
        exact ⟨rfl, rfl⟩

/-- C4: against a URL whose every attempt fails — in particular one that
always resolves with HTTP 429 — the fetcher makes exactly `maxAttempts`
attempts and fails with the wrapping error naming the URL and the attempt
count around the last underlying cause; it never returns a response, and
no outcome sequence makes it attempt more than `maxAttempts` times. -/
theorem c4_retry_exhaustion (p : Bool) (u body : String)
    (oc : Nat → AttemptResult) (jR jC : Nat → Nat) (max : Nat)
    (h1 : 1 ≤ max) (hoc : ∀ k, oc k = AttemptResult.httpFail 429 body) :
    (fetchWithRetriesRaw p u oc jR jC max).result
        = FetchResult.err (wrapMsg u max (httpErrMsg p u 429 body))
    ∧ (fetchWithRetriesRaw p u oc jR jC max).attempts = max
    ∧ (∀ oc2 : Nat → AttemptResult,
        (fetchWithRetriesRaw p u oc2 jR jC max).attempts ≤ max)
    ∧ (∀ oc2 : Nat → AttemptResult,
        (∀ k : Nat, ¬ oc2 k = AttemptResult.success) →
        (fetchWithRetriesRaw p u oc2 jR jC max).result
            = FetchResult.err (wrapMsg u max (failCause p u (oc2 max)))
        ∧ (fetchWithRetriesRaw p u oc2 jR jC max).attempts = max) := by
  have h := fetchGo_always_rate p u body 429 oc jR jC max (Or.inr rfl) hoc
    (max + 1 - 1) 1 rfl (Nat.le_refl 1) h1
  unfold fetchWithRetriesRaw
  rw [h]
  refine ⟨rfl, rfl, ?_, ?_⟩
  · intro oc2
    exact fetchGo_attempts_le p u oc2 jR jC max (max + 1 - 1) 1 rfl h1
  · intro oc2 hoc2
    exact fetchGo_always_fail p u oc2 jR jC max hoc2 (max + 1 - 1) 1 rfl
      (Nat.le_refl 1) h1

/-- Closed instance of C4's theorem: four attempts against a permanent
429 responder. -/
theorem c4_retry_exhaustion_witness :
    ((fetchWithRetriesRaw false ("https://example.com/a")
          (fun _ => AttemptResult.httpFail 429 ("blocked"))
          (fun _ => 0) (fun _ => 0) 4).result
        = FetchResult.err (wrapMsg ("https://example.com/a") 4
            (httpErrMsg false ("https://example.com/a") 429 ("blocked")))
    ∧ (fetchWithRetriesRaw false ("https://example.com/a")
          (fun _ => AttemptResult.httpFail 429 ("blocked"))
          (fun _ => 0) (fun _ => 0) 4).attempts = 4
    ∧ (∀ oc2 : Nat → AttemptResult,
        (fetchWithRetriesRaw false ("https://example.com/a") oc2
            (fun _ => 0) (fun _ => 0) 4).attempts ≤ 4)
    ∧ (∀ oc2 : Nat → AttemptResult,
        (∀ k : Nat, ¬ oc2 k = AttemptResult.success) →
        (fetchWithRetriesRaw false ("https://example.com/a") oc2
            (fun _ => 0) (fun _ => 0) 4).result
            = FetchResult.err (wrapMsg ("https://example.com/a") 4
                (failCause false ("https://example.com/a") (oc2 4)))
        ∧ (fetchWithRetriesRaw false ("https://example.com/a") oc2
            (fun _ => 0) (fun _ => 0) 4).attempts = 4)) :=
  c4_retry_exhaustion false ("https://example.com/a") ("blocked")
    (fun _ => AttemptResult.httpFail 429 ("blocked"))
    (fun _ => 0) (fun _ => 0) 4 (by decide) (fun _ => rfl)

/-- C9 counterexample: against a permanent 429 responder with five
permitted attempts and zero jitter, the delay slept after the fourth
attempt is the code's min(4000, 300·2^4) = 4000 ms, not the claimed
min(8000, 300·2^4) = 4800 ms. -/
theorem c9_backoff_counterexample :
    (fetchWithRetriesRaw false ("u") (fun _ => AttemptResult.httpFail 429 (""))
          (fun _ => 0) (fun _ => 0) 5).sleeps.get? 3 = some 4000
    ∧ (4000 : Nat) ≠ min 8000 (300 * 2 ^ 4) + 0 := by
  have h := fetchGo_always_rate false ("u") ("") 429
    (fun _ => AttemptResult.httpFail 429 ("")) (fun _ => 0) (fun _ => 0) 5
    (Or.inr rfl) (fun _ => rfl) (5 + 1 - 1) 1 rfl (Nat.le_refl 1) (by decide)
  unfold fetchWithRetriesRaw
  rw [h]
  exact ⟨by decide, by decide⟩

/-- C9 (amended): the delay slept after a failed attempt that is not the
last permitted one equals min(4000 ms, 300·2^attempt) plus the rate-limit
jitter when the response status was 403 or 429, and min(8000 ms,
300·2^attempt) plus the catch jitter for every other failure kind
(timeout, network error, non-2xx status other than 403/429) — the
`delayFormula` below. -/
theorem c9_backoff_formula (p : Bool) (u : String)
    (oc : Nat → AttemptResult) (jR jC : Nat → Nat) (max : Nat) :
    (fetchWithRetriesRaw p u oc jR jC max).sleeps
      = (List.range' 1
          ((fetchWithRetriesRaw p u oc jR jC max).attempts - 1)).map
          (delayFormula oc jR jC) := by
  unfold fetchWithRetriesRaw
  exact fetchGo_sleeps p u oc jR jC max (max + 1 - 1) 1 rfl

/-- Closed instance of C9's amended theorem on a permanent network
failure. -/
theorem c9_backoff_formula_witness :
    (fetchWithRetriesRaw false ("u") (fun _ => AttemptResult.netFail ("boom"))
          (fun _ => 0) (fun _ => 0) 4).sleeps
      = (List.range' 1
          ((fetchWithRetriesRaw false ("u")
              (fun _ => AttemptResult.netFail ("boom"))
              (fun _ => 0) (fun _ => 0) 4).attempts - 1)).map
          (delayFormula (fun _ => AttemptResult.netFail ("boom"))
            (fun _ => 0) (fun _ => 0)) :=
  c9_backoff_formula false ("u") (fun _ => AttemptResult.netFail ("boom"))
    (fun _ => 0) (fun _ => 0) 4

/-! ### Lemmas about the slug set -/

/-- Membership after a `Set`-style insertion. -/
theorem mem_addUnique (l : List String) (x y : String) :
    y ∈ addUnique l x ↔ y ∈ l ∨ y = x := by
  unfold addUnique
  split
  · rename_i h
    have hx : x ∈ l := by simpa using h
    constructor
    · exact Or.inl
    · rintro (hy | rfl)
      · exact hy
      · exact hx
  · simp [List.mem_append]

/-- `Set`-style insertion keeps the element list duplicate-free. -/
theorem nodup_addUnique (l : List String) (x : String) (h : l.Nodup) :
    (addUnique l x).Nodup := by
  unfold addUnique
  split
  · exact h
  · rename_i hc
    have hx : x ∉ l := by simpa using hc
    simp [List.nodup_append, h, hx]

/-- Filling a duplicate-free accumulator keeps it duplicate-free. -/
theorem nodup_foldl_addUnique (l : List String) (acc : List String)
    (h : acc.Nodup) : (l.foldl addUnique acc).Nodup := by
  induction l generalizing acc with
  | nil => exact h
  | cons x t ih => exact ih _ (nodup_addUnique acc x h)

/-- Accumulated elements survive further filling. -/
theorem mem_foldl_addUnique_of_acc (l : List String) (acc : List String)
    (y : String) (h : y ∈ acc) : y ∈ l.foldl addUnique acc := by
  induction l generalizing acc with
  | nil => exact h
  | cons x t ih => exact ih _ ((mem_addUnique acc x y).mpr (Or.inl h))

/-- Every inserted element ends up in the set. -/
theorem mem_foldl_addUnique_of_mem (l : List String) (acc : List String)
    (y : String) (h : y ∈ l) : y ∈ l.foldl addUnique acc := by
  induction l generalizing acc with
  | nil => cases h
  | cons x t ih =>
    rcases List.mem_cons.mp h with rfl | hy
    · exact mem_foldl_addUnique_of_acc t _ y
        ((mem_addUnique acc y y).mpr (Or.inr rfl))
    · exact ih _ hy

/-- Inserting only already-present elements leaves the set unchanged. -/
theorem foldl_addUnique_subset (l : List String) (acc : List String)
    (h : ∀ y ∈ l, y ∈ acc) : l.foldl addUnique acc = acc := by
  induction l generalizing acc with
  | nil => rfl
  | cons x t ih =>
    have hx : x ∈ acc := h x (List.mem_cons_self x t)
    have hstep : addUnique acc x = acc := by
      unfold addUnique
      rw [if_pos (by simpa using hx)]
    rw [List.foldl_cons, hstep]
    exact ih acc (fun y hy => h y (List.mem_cons_of_mem x hy))

/-- Inserting fresh, pairwise-distinct elements appends them in order. -/
theorem foldl_addUnique_fresh (l : List String) (acc : List String)
    (hd : l.Nodup) (hdisj : ∀ y ∈ l, y ∉ acc) :
    l.foldl addUnique acc = acc ++ l := by
  induction l generalizing acc with
  | nil => simp
  | cons x t ih =>
    have hx : x ∉ acc := hdisj x (List.mem_cons_self x t)
    have hstep : addUnique acc x = acc ++ [x] := by
      unfold addUnique
      rw [if_neg (by simpa using hx)]
    rw [List.foldl_cons, hstep]
    rw [ih (acc ++ [x]) (List.Nodup.of_cons hd) ?_]
    · simp
    · intro y hy
      simp only [List.mem_append, List.mem_singleton]
      rintro (hya | rfl)
      · exact hdisj y (List.mem_cons_of_mem x hy) hya
      · exact (List.nodup_cons.mp hd).1 hy

/-- C5 counterexample: a page whose last pagination label is "0" makes
`findPageCount` return 0, which is not an integer of at least 1. -/
theorem c5_page_count_counterexample :
    findPageCount
        (Html.elem ("body") []
          [Html.elem ("li") [(("class"), ("paginate-page"))]
            [Html.elem ("a") [] [Html.text ("0")]]]) = 0
    ∧ ¬(1 ≤ findPageCount
        (Html.elem ("body") []
          [Html.elem ("li") [(("class"), ("paginate-page"))]
            [Html.elem ("a") [] [Html.text ("0")]]])) := by
  constructor
  · decide
  · decide

/-- C5 (amended): `findPageCount` is total and returns 1 when pagination
markup is absent, otherwise the integer `parseInt` reads from the label
of the last pagination control, defaulting to 1 when that label is
unparseable — but that integer is not necessarily at least 1. -/
theorem c5_page_count_amended (doc : Html) :
    findPageCount doc = pageCountSpec doc
    ∧ (paginateItems doc = [] → findPageCount doc = 1)
    ∧ (∀ t : String, lastPaginationLabel doc = some t →
        parseIntJs10 t = none → findPageCount doc = 1) := by
  refine ⟨?_, ?_, ?_⟩
  · unfold findPageCount pageCountSpec lastPaginationLabel
    cases hlast : (paginateItems doc).getLast? with
    | none => rfl
    | some last =>
      dsimp only [Option.map]
      cases hp : parseIntJs10 (paginationLabelOf last) <;> rfl
  · intro h
    unfold findPageCount
    rw [h]
    rfl
  · intro t ht hp
    unfold lastPaginationLabel at ht
    unfold findPageCount
    cases hlast : (paginateItems doc).getLast? with
    | none => rfl
    | some last =>
      rw [hlast] at ht
      have ht2 : paginationLabelOf last = t := by simpa using ht
      rw [← ht2] at hp
      dsimp only
      rw [hp]

/-- Closed instance of C5's amended theorem at a concrete page. -/
theorem c5_page_count_witness :
    (findPageCount (Html.elem ("body") [] [])
        = pageCountSpec (Html.elem ("body") [] [])
    ∧ (paginateItems (Html.elem ("body") [] []) = [] →
        findPageCount (Html.elem ("body") [] []) = 1)
    ∧ (∀ t : String,
        lastPaginationLabel (Html.elem ("body") [] []) = some t →
        parseIntJs10 t = none →
        findPageCount (Html.elem ("body") [] []) = 1)) :=
  c5_page_count_amended (Html.elem ("body") [] [])

/-- C6: parsed slug lists are duplicate-free; collecting one page equals
its parse (first-seen order); collecting the same page twice adds
nothing; and a slug present on two pages appears exactly once in the
collected set. -/
theorem c6_slug_collection (doc p1 p2 : Html) (x : String)
    (h1 : x ∈ parseListPageForSlugs p1) (h2 : x ∈ parseListPageForSlugs p2) :
    (parseListPageForSlugs doc).Nodup
    ∧ collectSlugs [doc] = parseListPageForSlugs doc
    ∧ collectSlugs [doc, doc] = collectSlugs [doc]
    ∧ List.count x (collectSlugs [p1, p2]) = 1 := by
  have hnodup : ∀ d : Html, (parseListPageForSlugs d).Nodup := by
    intro d
    exact nodup_foldl_addUnique _ [] List.nodup_nil
  have hone : ∀ d : Html, collectSlugs [d] = parseListPageForSlugs d := by
    intro d
    show (parseListPageForSlugs d).foldl addUnique [] = parseListPageForSlugs d
    rw [foldl_addUnique_fresh _ [] (hnodup d) (by intro y hy; simp)]
    simp
  refine ⟨hnodup doc, hone doc, ?_, ?_⟩
  · show (parseListPageForSlugs doc).foldl addUnique
        ((parseListPageForSlugs doc).foldl addUnique []) = collectSlugs [doc]
    rw [foldl_addUnique_subset]
    · rfl
    · intro y hy
      show y ∈ (parseListPageForSlugs doc).foldl addUnique []
      exact mem_foldl_addUnique_of_mem _ [] y hy
  · have hmem : x ∈ collectSlugs [p1, p2] := by
      show x ∈ (parseListPageForSlugs p2).foldl addUnique
        ((parseListPageForSlugs p1).foldl addUnique [])
      exact mem_foldl_addUnique_of_acc _ _ x
        (mem_foldl_addUnique_of_mem _ [] x h1)
    have hnd : (collectSlugs [p1, p2]).Nodup := by
      show ((parseListPageForSlugs p2).foldl addUnique
        ((parseListPageForSlugs p1).foldl addUnique [])).Nodup
      exact nodup_foldl_addUnique _ _
        (nodup_foldl_addUnique _ [] List.nodup_nil)
    exact List.count_eq_one_of_mem hnd hmem

/-- Closed instance of C6's theorem: pages one and two both carry slug
"shared-film". -/
theorem c6_slug_collection_witness :
    ((parseListPageForSlugs
        (Html.elem ("ul") [(("data-item-slug"), ("shared-film"))] [])).Nodup
    ∧ collectSlugs [Html.elem ("ul") [(("data-item-slug"), ("shared-film"))] []]
        = parseListPageForSlugs
            (Html.elem ("ul") [(("data-item-slug"), ("shared-film"))] [])
    ∧ collectSlugs
          [Html.elem ("ul") [(("data-item-slug"), ("shared-film"))] [],
           Html.elem ("ul") [(("data-item-slug"), ("shared-film"))] []]
        = collectSlugs
            [Html.elem ("ul") [(("data-item-slug"), ("shared-film"))] []]
    ∧ List.count ("shared-film")
        (collectSlugs
          [Html.elem ("div") [(("data-item-slug"), ("shared-film"))] [],
           Html.elem ("section") [(("data-item-slug"), (" shared-film "))]
             [Html.elem ("p") [(("data-item-slug"), ("other-film"))] []]]) = 1) :=
  c6_slug_collection
    (Html.elem ("ul") [(("data-item-slug"), ("shared-film"))] [])
    (Html.elem ("div") [(("data-item-slug"), ("shared-film"))] [])
    (Html.elem ("section") [(("data-item-slug"), (" shared-film "))]
      [Html.elem ("p") [(("data-item-slug"), ("other-film"))] []])
    ("shared-film") (by decide) (by decide)

/-! ### Lemmas about the sort -/

/-- A decimal digit char has code point between 48 and 57. -/
theorem digit_bounds (c : Char) (h : c.isDigit = true) :
    48 ≤ c.toNat ∧ c.toNat ≤ 57 := by
  simp only [Char.isDigit, Bool.and_eq_true, decide_eq_true_eq] at h
  exact ⟨h.1, h.2⟩

/-- A decimal digit char is not the dash. -/
theorem digit_ne_dash (c : Char) (h : c.isDigit = true) : ¬(c = '-') := by
  intro hc
  subst hc
  simp [Char.isDigit] at h

/-- Decimal value bound for the digit fold. -/
theorem digitsVal_foldl_lt (cs : List Char) :
    ∀ a : Nat, cs.all Char.isDigit = true →
      cs.foldl (fun a c => a * 10 + (c.toNat - ('0').toNat)) a
        < (a + 1) * 10 ^ cs.length := by
  induction cs with
  | nil =>
    intro a _
    simpa using Nat.lt_succ_self a
  | cons c t ih =>
    intro a h
    simp only [List.all_cons, Bool.and_eq_true] at h
    have hc := digit_bounds c h.1
    have step := ih (a * 10 + (c.toNat - ('0').toNat)) h.2
    calc List.foldl (fun a c => a * 10 + (c.toNat - ('0').toNat))
          (a * 10 + (c.toNat - ('0').toNat)) t
        < (a * 10 + (c.toNat - ('0').toNat) + 1) * 10 ^ t.length := step
      _ ≤ ((a + 1) * 10) * 10 ^ t.length := by
          have h9 : c.toNat - ('0').toNat ≤ 9 := by
            have h48 : ('0').toNat = 48 := by decide
            omega
          apply Nat.mul_le_mul_right
          omega
      _ = (a + 1) * 10 ^ (c :: t).length := by
          rw [List.length_cons]
          ring

/-- The value of an eight-digit string is below 10^8. -/
theorem digitsVal_lt_of_eight (cs : List Char) (hlen : cs.length = 8)
    (h : cs.all Char.isDigit = true) : digitsVal cs < 100000000 := by
  have h0 := digitsVal_foldl_lt cs 0 h
  rw [hlen] at h0
  unfold digitsVal
  simpa using h0

/-- A well-formed optional date always has a finite key: the maximum safe
integer exactly when the date is absent, a value below 10^8 when it is
present. -/
theorem dateKey_wf (d : Option String) (h : wfDate d = true) :
    ∃ k : Int, dateKey d = some k ∧ k ≤ 9007199254740991
      ∧ (d = none → k = 9007199254740991)
      ∧ (∀ s : String, d = some s → k < 100000000) := by
  cases d with
  | none =>
    refine ⟨9007199254740991, rfl, le_refl _, fun _ => rfl, ?_⟩
    intro s hs
    cases hs
  | some s =>
    have h2 : wfDateStr s = true := h
    unfold wfDateStr at h2
    split at h2
    · rename_i d1 d2 m1 m2 y1 y2 y3 y4 heq
      simp only [List.all_cons, List.all_nil, Bool.and_eq_true] at h2
      obtain ⟨hd1, hd2, hm1, hm2, hy1, hy2, hy3, hy4, -⟩ := h2
      have e1 := eq_false (digit_ne_dash d1 hd1)
      have e2 := eq_false (digit_ne_dash d2 hd2)
      have e3 := eq_false (digit_ne_dash m1 hm1)
      have e4 := eq_false (digit_ne_dash m2 hm2)
      have e5 := eq_false (digit_ne_dash y1 hy1)
      have e6 := eq_false (digit_ne_dash y2 hy2)
      have e7 := eq_false (digit_ne_dash y3 hy3)
      have e8 := eq_false (digit_ne_dash y4 hy4)
      have hsplit : splitOnDashGo [] s.toList
          = [[d1, d2], [m1, m2], [y1, y2, y3, y4]] := by
        rw [heq]
        simp [splitOnDashGo, e1, e2, e3, e4, e5, e6, e7, e8]
      have hkey : dateKey (some s)
          = jsNumberVal (String.mk [y1, y2, y3, y4, m1, m2, d1, d2]) := by
        unfold dateKey
        dsimp only
        rw [hsplit]
        rfl
      have hall : ([y1, y2, y3, y4, m1, m2, d1, d2]).all Char.isDigit
          = true := by
        simp [hd1, hd2, hm1, hm2, hy1, hy2, hy3, hy4]
      have hnum : jsNumberVal (String.mk [y1, y2, y3, y4, m1, m2, d1, d2])
          = some ((digitsVal [y1, y2, y3, y4, m1, m2, d1, d2] : Nat) : Int) := by
        unfold jsNumberVal
        simp [hall]
      have hbound : digitsVal [y1, y2, y3, y4, m1, m2, d1, d2] < 100000000 :=
        digitsVal_lt_of_eight _ (by simp) hall
      refine ⟨((digitsVal [y1, y2, y3, y4, m1, m2, d1, d2] : Nat) : Int),
        by rw [hkey, hnum], ?_, ?_, ?_⟩
      · have : (100000000 : Int) ≤ 9007199254740991 := by decide
        omega
      · intro hs
        cases hs
      · intro t ht
        omega
    · cases h2

/-- A well-formed record always has a finite minimum key: the maximum
safe integer exactly when both dates are absent, a value below 10^8 when
any date is present. -/
theorem earliestKey_wf (it : FilmResult) (h : wfFilm it = true) :
    ∃ k : Int, earliestKey it = some k ∧ k ≤ 9007199254740991
      ∧ (it.country_release = none → it.digital_release = none →
          k = 9007199254740991)
      ∧ (¬(it.country_release = none ∧ it.digital_release = none) →
          k < 100000000) := by
  unfold wfFilm at h
  simp only [Bool.and_eq_true] at h
  obtain ⟨kc, hkc, hkcb, hkcn, hkcs⟩ := dateKey_wf _ h.1
  obtain ⟨kd, hkd, hkdb, hkdn, hkds⟩ := dateKey_wf _ h.2
  refine ⟨min kc kd, ?_, ?_, ?_, ?_⟩
  · unfold earliestKey
    rw [hkc, hkd]
  · exact le_trans (min_le_left kc kd) hkcb
  · intro hc hd
    rw [hkcn hc, hkdn hd]
    simp
  · intro hnot
    by_cases hc : it.country_release = none
    · have hd : ¬ it.digital_release = none := fun hd => hnot ⟨hc, hd⟩
      cases hds : it.digital_release with
      | none => exact absurd hds hd
      | some s =>
        have := hkds s hds
        omega
    · cases hcs : it.country_release with
      | none => exact absurd hcs hc
      | some s =>
        have := hkcs s hcs
        omega

/-- A non-positive comparator value means the claim's ordering holds, for
well-formed records. -/
theorem claimLe_of_compare_le (nameCmp : String → String → Int)
    (a b : FilmResult) (hwa : wfFilm a = true) (hwb : wfFilm b = true)
    (h : sortCompare nameCmp a b ≤ 0) : claimLe nameCmp a b := by
  obtain ⟨ka, hka, -, -, -⟩ := earliestKey_wf a hwa
  obtain ⟨kb, hkb, -, -, -⟩ := earliestKey_wf b hwb
  unfold sortCompare at h
  rw [hka, hkb] at h
  dsimp only at h
  refine ⟨ka, kb, hka, hkb, ?_⟩
  by_cases heq : ka = kb
  · rw [if_pos heq] at h
    exact Or.inr ⟨heq, h⟩
  · rw [if_neg heq] at h
    exact Or.inl (by omega)

/-- A positive comparator value means the claim's ordering holds the
other way around, for well-formed records and a consistent collator. -/
theorem claimLe_of_compare_gt (nameCmp : String → String → Int)
    (hanti : ∀ x y : String, ¬ nameCmp x y ≤ 0 → nameCmp y x ≤ 0)
    (a b : FilmResult) (hwa : wfFilm a = true) (hwb : wfFilm b = true)
    (h : ¬ sortCompare nameCmp a b ≤ 0) : claimLe nameCmp b a := by
  obtain ⟨ka, hka, -, -, -⟩ := earliestKey_wf a hwa
  obtain ⟨kb, hkb, -, -, -⟩ := earliestKey_wf b hwb
  unfold sortCompare at h
  rw [hka, hkb] at h
  dsimp only at h
  refine ⟨kb, ka, hkb, hka, ?_⟩
  by_cases heq : ka = kb
  · rw [if_pos heq] at h
    exact Or.inr ⟨heq.symm, hanti _ _ h⟩
  · rw [if_neg heq] at h
    exact Or.inl (by omega)

/-- The claim's ordering is transitive when the collator is. -/
theorem claimLe_trans (nameCmp : String → String → Int)
    (htrans : ∀ x y z : String,
      nameCmp x y ≤ 0 → nameCmp y z ≤ 0 → nameCmp x z ≤ 0)
    (a b c : FilmResult) (hab : claimLe nameCmp a b)
    (hbc : claimLe nameCmp b c) : claimLe nameCmp a c := by
  obtain ⟨ka, kb, hka, hkb, hab1⟩ := hab
  obtain ⟨kb2, kc, hkb2, hkc, hbc1⟩ := hbc
  rw [hkb] at hkb2
  injection hkb2 with hkb2
  subst hkb2
  refine ⟨ka, kc, hka, hkc, ?_⟩
  rcases hab1 with h1 | ⟨h1, h1n⟩
  · rcases hbc1 with h2 | ⟨h2, -⟩
    · exact Or.inl (by omega)
    · exact Or.inl (by omega)
  · rcases hbc1 with h2 | ⟨h2, h2n⟩
    · exact Or.inl (by omega)
    · exact Or.inr ⟨by omega, htrans _ _ _ h1n h2n⟩

/-- Membership through stable insertion. -/
theorem mem_insertByCompare (nameCmp : String → String → Int)
    (a x : FilmResult) (l : List FilmResult) :
    x ∈ insertByCompare nameCmp a l ↔ x = a ∨ x ∈ l := by
  induction l with
  | nil => simp [insertByCompare]
  | cons b t ih =>
    unfold insertByCompare
    split
    · constructor
      · intro h
        rcases List.mem_cons.mp h with rfl | h2
        · exact Or.inl rfl
        · exact Or.inr h2
      · rintro (rfl | h2)
        · exact List.mem_cons_self _ _
        · exact List.mem_cons_of_mem _ h2
    · constructor
      · intro h
        rcases List.mem_cons.mp h with rfl | h2
        · exact Or.inr (List.mem_cons_self _ _)
        · rcases ih.mp h2 with rfl | h3
          · exact Or.inl rfl
          · exact Or.inr (List.mem_cons_of_mem _ h3)
      · rintro (rfl | h2)
        · exact List.mem_cons_of_mem _ (ih.mpr (Or.inl rfl))
        · rcases List.mem_cons.mp h2 with rfl | h3
          · exact List.mem_cons_self _ _
          · exact List.mem_cons_of_mem _ (ih.mpr (Or.inr h3))

/-- Stable insertion is a permutation of consing. -/
theorem perm_insertByCompare (nameCmp : String → String → Int)
    (a : FilmResult) (l : List FilmResult) :
    (insertByCompare nameCmp a l).Perm (a :: l) := by
  induction l with
  | nil => exact List.Perm.refl _
  | cons b t ih =>
    unfold insertByCompare
    split
    · exact List.Perm.refl _
    · exact List.Perm.trans (List.Perm.cons b ih) (List.Perm.swap a b t)

/-- Stable insertion of a well-formed record into a well-formed sorted
list keeps it sorted for the claim's ordering. -/
theorem pairwise_insertByCompare (nameCmp : String → String → Int)
    (hanti : ∀ x y : String, ¬ nameCmp x y ≤ 0 → nameCmp y x ≤ 0)
    (htrans : ∀ x y z : String,
      nameCmp x y ≤ 0 → nameCmp y z ≤ 0 → nameCmp x z ≤ 0)
    (a : FilmResult) (l : List FilmResult) (hwa : wfFilm a = true)
    (hwl : ∀ x ∈ l, wfFilm x = true)
    (hp : List.Pairwise (claimLe nameCmp) l) :
    List.Pairwise (claimLe nameCmp) (insertByCompare nameCmp a l) := by
  induction l with
  | nil => simp [insertByCompare]
  | cons b t ih =>
    have hwb : wfFilm b = true := hwl b (List.mem_cons_self b t)
    have hpt := List.pairwise_cons.mp hp
    unfold insertByCompare
    split
    · rename_i hc
      have hab : claimLe nameCmp a b :=
        claimLe_of_compare_le nameCmp a b hwa hwb hc
      refine List.Pairwise.cons ?_ hp
      intro y hy
      rcases List.mem_cons.mp hy with rfl | hyt
      · exact hab
      · exact claimLe_trans nameCmp htrans a b y hab (hpt.1 y hyt)
    · rename_i hc
      have hba : claimLe nameCmp b a :=
        claimLe_of_compare_gt nameCmp hanti a b hwa hwb hc
      refine List.Pairwise.cons ?_
        (ih (fun x hx => hwl x (List.mem_cons_of_mem b hx)) hpt.2)
      intro y hy
      rcases (mem_insertByCompare nameCmp a y t).mp hy with rfl | hyt
      · exact hba
      · exact hpt.1 y hyt

/-- The modelled sort permutes its input. -/
theorem perm_sortFilms (nameCmp : String → String → Int)
    (l : List FilmResult) : (sortFilms nameCmp l).Perm l := by
  induction l with
  | nil => exact List.Perm.refl _
  | cons a t ih =>
    show (insertByCompare nameCmp a (sortFilms nameCmp t)).Perm (a :: t)
    exact List.Perm.trans (perm_insertByCompare nameCmp a _)
      (List.Perm.cons a ih)

/-- The modelled sort of a well-formed list is sorted for the claim's
ordering. -/
theorem pairwise_sortFilms (nameCmp : String → String → Int)
    (hanti : ∀ x y : String, ¬ nameCmp x y ≤ 0 → nameCmp y x ≤ 0)
    (htrans : ∀ x y z : String,
      nameCmp x y ≤ 0 → nameCmp y z ≤ 0 → nameCmp x z ≤ 0)
    (l : List FilmResult) (hwl : ∀ x ∈ l, wfFilm x = true) :
    List.Pairwise (claimLe nameCmp) (sortFilms nameCmp l) := by
  induction l with
  | nil => simp [sortFilms]
  | cons a t ih =>
    show List.Pairwise (claimLe nameCmp)
      (insertByCompare nameCmp a (sortFilms nameCmp t))
    have hwt : ∀ x ∈ t, wfFilm x = true :=
      fun x hx => hwl x (List.mem_cons_of_mem a hx)
    refine pairwise_insertByCompare nameCmp hanti htrans a _
      (hwl a (List.mem_cons_self a t)) ?_ (ih hwt)
    intro x hx
    exact hwt x ((perm_sortFilms nameCmp t).mem_iff.mp hx)

/-- C7: the output sort orders records by the minimum of their two date
keys ascending with the display-name comparison breaking ties, an absent
date counting as the maximum possible key; a record with any date
strictly precedes a record with no dates; and the spec's three-record
example sorts as the 2019 record, the 2020 record, then the dateless
record. -/
theorem c7_sort_ordering (nameCmp : String → String → Int)
    (l : List FilmResult) (hwl : ∀ x ∈ l, wfFilm x = true)
    (hanti : ∀ x y : String, ¬ nameCmp x y ≤ 0 → nameCmp y x ≤ 0)
    (htrans : ∀ x y z : String,
      nameCmp x y ≤ 0 → nameCmp y z ≤ 0 → nameCmp x z ≤ 0) :
    (sortFilms nameCmp l).Perm l
    ∧ List.Pairwise (claimLe nameCmp) (sortFilms nameCmp l)
    ∧ (∀ a b : FilmResult, a ∈ l → b ∈ l →
        ¬(a.country_release = none ∧ a.digital_release = none) →
        b.country_release = none → b.digital_release = none →
        ∃ ka kb : Int, earliestKey a = some ka ∧ earliestKey b = some kb
          ∧ ka < kb)
    ∧ sortFilms (fun _ _ => 0) [filmA, filmB, filmC]
        = [filmB, filmA, filmC] := by
  refine ⟨perm_sortFilms nameCmp l,
    pairwise_sortFilms nameCmp hanti htrans l hwl, ?_, by decide⟩
  intro a b ha hb hadate hbc hbd
  obtain ⟨ka, hka, -, -, hlt⟩ := earliestKey_wf a (hwl a ha)
  obtain ⟨kb, hkb, -, hmax, -⟩ := earliestKey_wf b (hwl b hb)
  refine ⟨ka, kb, hka, hkb, ?_⟩
  have h1 := hlt hadate
  have h2 := hmax hbc hbd
  omega

/-- Closed instance of C7's theorem on the spec's three-record example
with the trivial collator. -/
theorem c7_sort_ordering_witness :
    ((sortFilms (fun _ _ => 0) [filmA, filmB, filmC]).Perm
        [filmA, filmB, filmC]
    ∧ List.Pairwise (claimLe (fun _ _ => 0))
        (sortFilms (fun _ _ => 0) [filmA, filmB, filmC])
    ∧ (∀ a b : FilmResult, a ∈ [filmA, filmB, filmC] →
        b ∈ [filmA, filmB, filmC] →
        ¬(a.country_release = none ∧ a.digital_release = none) →
        b.country_release = none → b.digital_release = none →
        ∃ ka kb : Int, earliestKey a = some ka ∧ earliestKey b = some kb
          ∧ ka < kb)
    ∧ sortFilms (fun _ _ => 0) [filmA, filmB, filmC]
        = [filmB, filmA, filmC]) :=
  c7_sort_ordering (fun _ _ => 0) [filmA, filmB, filmC] (by decide)
    (fun x y h => absurd (le_refl 0) h)
    (fun _ _ _ _ _ => le_refl 0)

/-! ### Lemmas about the resolving task -/

/-- A successfully fetched film page contributes no error message. -/
theorem pageResult_ok_error (slug : String) (doc : Html) :
    (pageResult slug (Except.ok doc)).error = [] := rfl

/-- The stored catalogue id of a page whose markup has none is null. -/
theorem pageResult_tmdb_none (slug : String) (doc : Html)
    (h : extractTmdbFromFilmHtml doc = none) :
    (pageResult slug (Except.ok doc)).tmdb_id = none := by
  unfold pageResult
  dsimp only
  rw [h]

/-- The stored catalogue id of a page with a truthy parsed id. -/
theorem pageResult_tmdb_some (slug : String) (doc : Html) (n : Int)
    (h : extractTmdbFromFilmHtml doc = some n) (hn : ¬ n = 0) :
    (pageResult slug (Except.ok doc)).tmdb_id = some n := by
  unfold pageResult
  dsimp only
  rw [h]
  dsimp only
  rw [if_neg hn]

/-- C8 counterexample: a film page with catalogue id 42, a present
credential and a successful metadata lookup whose response holds no
release events produce a record with null dates and an empty error list —
the absence of a release date is not recorded as an error. -/
theorem c8_missing_date_counterexample :
    (processItem ("f") ("US") none true (Except.ok filmPage8)
        (Except.ok (some ⟨some []⟩))).country_release = none
    ∧ (processItem ("f") ("US") none true (Except.ok filmPage8)
        (Except.ok (some ⟨some []⟩))).digital_release = none
    ∧ (processItem ("f") ("US") none true (Except.ok filmPage8)
        (Except.ok (some ⟨some []⟩))).error = [] := by
  refine ⟨?_, ?_, ?_⟩ <;> decide

/-- C8 (amended): a missing catalogue identifier is recorded as an
accumulated error, never a failure; with the credential absent the
metadata client is never consulted (the result is independent of the
lookup outcome), the skip is recorded on every item that has a catalogue
identifier, and an item without one records the missing-identifier
message instead; and a successful lookup that finds no release dates
leaves the date fields null without recording any error. -/
theorem c8_resolving_errors (slug country : String)
    (allowed : Option (List Int)) (po : Except String Html)
    (t1 t2 : Except String (Option TmdbResponse)) :
    (∀ doc : Html, po = Except.ok doc → extractTmdbFromFilmHtml doc = none →
      ("tmdb_id not found on film page")
        ∈ (processItem slug country allowed true po t1).error)
    ∧ processItem slug country allowed false po t1
        = processItem slug country allowed false po t2
    ∧ (∀ doc : Html, ∀ n : Int, po = Except.ok doc →
        extractTmdbFromFilmHtml doc = some n → ¬ n = 0 →
        ("TMDB_BEARER env missing; skipped TMDB lookup")
          ∈ (processItem slug country allowed false po t1).error)
    ∧ (∀ doc : Html, po = Except.ok doc → extractTmdbFromFilmHtml doc = none →
        ("tmdb_id not found on film page")
          ∈ (processItem slug country allowed false po t1).error
        ∧ ("TMDB_BEARER env missing; skipped TMDB lookup")
          ∉ (processItem slug country allowed false po t1).error)
    ∧ (∀ doc : Html, ∀ n : Int, ∀ json : Option TmdbResponse,
        po = Except.ok doc → extractTmdbFromFilmHtml doc = some n →
        ¬ n = 0 → t1 = Except.ok json →
        (processItem slug country allowed true po t1).error = []
        ∧ (processItem slug country allowed true po t1).country_release
            = (extractDatesFromJsonWithTypes json country allowed).country_earliest
        ∧ (processItem slug country allowed true po t1).digital_release
            = (extractDatesFromJsonWithTypes json country allowed).type4_earliest_any_iso) := by
  refine ⟨?_, ?_, ?_, ?_, ?_⟩
  · intro doc hpo hid
    subst hpo
    unfold processItem
    dsimp only
    rw [pageResult_tmdb_none slug doc hid]
    dsimp only
    rw [pageResult_ok_error]
    simp
  · unfold processItem
    dsimp only
    cases hid : (pageResult slug po).tmdb_id with
    | none => rfl
    | some n => rfl
  · intro doc n hpo hid hn
    subst hpo
    unfold processItem
    dsimp only
    rw [pageResult_tmdb_some slug doc n hid hn]
    dsimp only
    rw [pageResult_ok_error]
    simp
  · intro doc hpo hid
    subst hpo
    unfold processItem
    dsimp only
    rw [pageResult_tmdb_none slug doc hid]
    dsimp only
    rw [pageResult_ok_error]
    constructor
    · simp
    · simp
  · intro doc n json hpo hid hn ht
    subst hpo
    subst ht
    unfold processItem
    dsimp only
    rw [pageResult_tmdb_some slug doc n hid hn]
    dsimp only
    rw [pageResult_ok_error]
    exact ⟨rfl, rfl, rfl⟩

/-- Closed instance of C8's amended theorem: the page yields id 42, the
lookup succeeds with an empty response. -/
theorem c8_resolving_errors_witness :
    ((∀ doc : Html, (Except.ok filmPage8 : Except String Html) = Except.ok doc →
      extractTmdbFromFilmHtml doc = none →
      ("tmdb_id not found on film page")
        ∈ (processItem ("f") ("US") none true (Except.ok filmPage8)
            (Except.ok (some ⟨some []⟩))).error)
    ∧ processItem ("f") ("US") none false (Except.ok filmPage8)
          (Except.ok (some ⟨some []⟩))
        = processItem ("f") ("US") none false (Except.ok filmPage8)
            (Except.error ("down"))
    ∧ (∀ doc : Html, ∀ n : Int,
        (Except.ok filmPage8 : Except String Html) = Except.ok doc →
        extractTmdbFromFilmHtml doc = some n → ¬ n = 0 →
        ("TMDB_BEARER env missing; skipped TMDB lookup")
          ∈ (processItem ("f") ("US") none false (Except.ok filmPage8)
              (Except.ok (some ⟨some []⟩))).error)
    ∧ (∀ doc : Html, (Except.ok filmPage8 : Except String Html) = Except.ok doc →
        extractTmdbFromFilmHtml doc = none →
        ("tmdb_id not found on film page")
          ∈ (processItem ("f") ("US") none false (Except.ok filmPage8)
              (Except.ok (some ⟨some []⟩))).error
        ∧ ("TMDB_BEARER env missing; skipped TMDB lookup")
          ∉ (processItem ("f") ("US") none false (Except.ok filmPage8)
              (Except.ok (some ⟨some []⟩))).error)
    ∧ (∀ doc : Html, ∀ n : Int, ∀ json : Option TmdbResponse,
        (Except.ok filmPage8 : Except String Html) = Except.ok doc →
        extractTmdbFromFilmHtml doc = some n → ¬ n = 0 →
        (Except.ok (some (⟨some []⟩ : TmdbResponse))
          : Except String (Option TmdbResponse)) = Except.ok json →
        (processItem ("f") ("US") none true (Except.ok filmPage8)
            (Except.ok (some ⟨some []⟩))).error = []
        ∧ (processItem ("f") ("US") none true (Except.ok filmPage8)
              (Except.ok (some ⟨some []⟩))).country_release
            = (extractDatesFromJsonWithTypes json ("US") none).country_earliest
        ∧ (processItem ("f") ("US") none true (Except.ok filmPage8)
              (Except.ok (some ⟨some []⟩))).digital_release
            = (extractDatesFromJsonWithTypes json ("US") none).type4_earliest_any_iso)) :=
  c8_resolving_errors ("f") ("US") none (Except.ok filmPage8)
    (Except.ok (some ⟨some []⟩)) (Except.error ("down"))

/-! ### Lemmas about the worker pool -/

/-- An updated slot reads back the written status. -/
theorem workers_set_get_self (l : List WorkerStatus) (w : Nat)
    (x y : WorkerStatus) (h : l.get? w = some x) :
    (l.set w y).get? w = some y := by
  rw [List.get?_set_eq, h]
  rfl

/-- The invariant holds initially. -/
theorem poolInv_init {β : Type} (len limit : Nat)
    (outcome : Nat → MapResult β) :
    PoolInv len outcome (min limit (if len = 0 then 1 else len))
      (initPool β len limit) := by
  unfold initPool
  refine ⟨List.length_replicate _ _, List.length_replicate _ _, ?_, ?_, ?_⟩
  · intro w i hw
    dsimp only at hw
    obtain ⟨hlt, hget⟩ := List.get?_eq_some.mp hw
    rw [List.get_replicate] at hget
    cases hget
  · intro j hj1 hj2
    dsimp only at hj1
    exact absurd hj1 (by omega)
  · intro w hw
    dsimp only at hw
    obtain ⟨hlt, hget⟩ := List.get?_eq_some.mp hw
    rw [List.get_replicate] at hget
    cases hget

/-- Every scheduler step preserves the invariant. -/
theorem poolInv_step {β : Type} (len : Nat) (outcome : Nat → MapResult β)
    (nw : Nat) (s s2 : PoolState β) (hinv : PoolInv len outcome nw s)
    (hstep : PoolStep len outcome s s2) : PoolInv len outcome nw s2 := by
  cases hstep with
  | claim w hw hlt =>
    have hset := workers_set_get_self s.workers w WorkerStatus.idle
      (WorkerStatus.busy s.idx) hw
    refine ⟨hinv.res_len, ?_, ?_, ?_, ?_⟩
    · show (s.workers.set w (WorkerStatus.busy s.idx)).length = nw
      rw [List.length_set]
      exact hinv.w_len
    · intro w2 i hw2
      dsimp only at hw2 ⊢
      by_cases hww : w2 = w
      · subst hww
        rw [hset] at hw2
        injection hw2 with h3
        injection h3 with h4
        subst h4
        exact ⟨hlt, by omega⟩
      · rw [List.get?_set_ne _ s.workers (fun h => hww h.symm)] at hw2
        have h5 := hinv.busy_lt w2 i hw2
        exact ⟨h5.1, by omega⟩
    · intro j hj1 hj2
      dsimp only at hj1 ⊢
      by_cases hji : j = s.idx
      · subst hji
        exact Or.inl ⟨w, hset⟩
      · rcases hinv.claimed j (by omega) hj2 with ⟨w2, hw2⟩ | hres
        · by_cases hww : w2 = w
          · subst hww
            rw [hw] at hw2
            simp at hw2
          · refine Or.inl ⟨w2, ?_⟩
            rw [List.get?_set_ne _ s.workers (fun h => hww h.symm)]
            exact hw2
        · exact Or.inr hres
    · intro w2 hw2
      dsimp only at hw2 ⊢
      by_cases hww : w2 = w
      · subst hww
        rw [hset] at hw2
        simp at hw2
      · rw [List.get?_set_ne _ s.workers (fun h => hww h.symm)] at hw2
        have h5 := hinv.done_idx w2 hw2
        omega
  | exit w hw hge =>
    have hset := workers_set_get_self s.workers w WorkerStatus.idle
      WorkerStatus.done hw
    refine ⟨hinv.res_len, ?_, ?_, ?_, ?_⟩
    · show (s.workers.set w WorkerStatus.done).length = nw
      rw [List.length_set]
      exact hinv.w_len
    · intro w2 i hw2
      dsimp only at hw2 ⊢
      by_cases hww : w2 = w
      · subst hww
        rw [hset] at hw2
        simp at hw2
      · rw [List.get?_set_ne _ s.workers (fun h => hww h.symm)] at hw2
        have h5 := hinv.busy_lt w2 i hw2
        exact ⟨h5.1, by omega⟩
    · intro j hj1 hj2
      dsimp only at hj1 ⊢
      rcases hinv.claimed j (by omega) hj2 with ⟨w2, hw2⟩ | hres
      · by_cases hww : w2 = w
        · subst hww
          rw [hw] at hw2
          simp at hw2
        · refine Or.inl ⟨w2, ?_⟩
          rw [List.get?_set_ne _ s.workers (fun h => hww h.symm)]
          exact hw2
      · exact Or.inr hres
    · intro w2 hw2
      dsimp only at hw2 ⊢
      omega
  | finish w i hw =>
    have hset := workers_set_get_self s.workers w (WorkerStatus.busy i)
      WorkerStatus.idle hw
    have hbl := hinv.busy_lt w i hw
    refine ⟨?_, ?_, ?_, ?_, ?_⟩
    · show (s.results.set i (some (outcome i))).length = len
      rw [List.length_set]
      exact hinv.res_len
    · show (s.workers.set w WorkerStatus.idle).length = nw
      rw [List.length_set]
      exact hinv.w_len
    · intro w2 i2 hw2
      dsimp only at hw2 ⊢
      by_cases hww : w2 = w
      · subst hww
        rw [hset] at hw2
        simp at hw2
      · rw [List.get?_set_ne _ s.workers (fun h => hww h.symm)] at hw2
        exact hinv.busy_lt w2 i2 hw2
    · intro j hj1 hj2
      dsimp only at hj1 ⊢
      by_cases hji : j = i
      · subst hji
        refine Or.inr ?_
        have hjlen : j < s.results.length := by
          rw [hinv.res_len]
          exact hbl.1
        rw [List.get?_set_eq, List.get?_eq_get hjlen]
        rfl
      · rcases hinv.claimed j hj1 hj2 with ⟨w2, hw2⟩ | hres
        · by_cases hww : w2 = w
          · subst hww
            rw [hw] at hw2
            injection hw2 with h3
            injection h3 with h4
            exact absurd h4.symm hji
          · refine Or.inl ⟨w2, ?_⟩
            rw [List.get?_set_ne _ s.workers (fun h => hww h.symm)]
            exact hw2
        · refine Or.inr ?_
          rw [List.get?_set_ne _ s.results (fun h => hji h.symm)]
          exact hres
    · intro w2 hw2
      dsimp only at hw2 ⊢
      by_cases hww : w2 = w
      · subst hww
        rw [hset] at hw2
        simp at hw2
      · rw [List.get?_set_ne _ s.workers (fun h => hww h.symm)] at hw2
        exact hinv.done_idx w2 hw2

/-- The invariant holds in every reachable state. -/
theorem poolInv_exec {β : Type} (len : Nat) (outcome : Nat → MapResult β)
    (nw : Nat) (s0 s : PoolState β)
    (hexec : Relation.ReflTransGen (PoolStep len outcome) s0 s)
    (h0 : PoolInv len outcome nw s0) : PoolInv len outcome nw s := by
  induction hexec with
  | refl => exact h0
  | tail h1 h2 ih => exact poolInv_step len outcome nw _ _ ih h2

/-- In a finished state satisfying the invariant (with at least one
worker), the results array holds exactly the outcome of every index, in
input order. -/
theorem poolDone_results {β : Type} (len : Nat)
    (outcome : Nat → MapResult β) (nw : Nat) (s : PoolState β)
    (hnw : 1 ≤ nw) (hinv : PoolInv len outcome nw s) (hdone : PoolDone s) :
    s.results = (List.range len).map (fun i => some (outcome i)) := by
  have hw0lt : 0 < s.workers.length := by
    rw [hinv.w_len]
    omega
  have hw0 : s.workers.get? 0 = some WorkerStatus.done := by
    rw [List.get?_eq_get hw0lt]
    rw [hdone _ (List.get_mem s.workers 0 hw0lt)]
  have hidx : len ≤ s.idx := hinv.done_idx 0 hw0
  apply List.ext_get?
  intro n
  by_cases hn : n < len
  · have hcl := hinv.claimed n (by omega) hn
    rcases hcl with ⟨w2, hw2⟩ | hres
    · obtain ⟨hlt, hget⟩ := List.get?_eq_some.mp hw2
      have := hdone _ (List.get_mem s.workers w2 hlt)
      rw [this] at hget
      cases hget
    · rw [hres, List.get?_map, List.get?_range hn]
      rfl
  · have h1 : s.results.get? n = none := by
      rw [List.get?_eq_none, hinv.res_len]
      omega
    have h2 : ((List.range len).map (fun i => some (outcome i))).get? n
        = none := by
      rw [List.get?_eq_none, List.length_map, List.length_range]
      omega
    rw [h1, h2]

/-- C3: for every input list, every concurrency limit of at least 1 and
every per-item task, any completed run of the bounded-concurrency
executor leaves the results array with exactly one entry per input, in
input order, holding the task's result for that input — a thrown task
error becomes a record carrying only the error message at that index and
leaves every other index exactly as a successful run would. -/
theorem c3_async_map_limit {α β : Type} (inputs : List α) (limit : Nat)
    (mapper : α → Nat → Except String β) (s : PoolState β)
    (hlim : 1 ≤ limit)
    (hexec : Relation.ReflTransGen
      (PoolStep inputs.length (taskOutcome mapper inputs))
      (initPool β inputs.length limit) s)
    (hdone : PoolDone s) :
    s.results = (List.range inputs.length).map
      (fun i => some (taskOutcome mapper inputs i)) := by
  have hnw : 1 ≤ min limit (if inputs.length = 0 then 1 else inputs.length) := by
    by_cases h : inputs.length = 0
    · simp [h]
      omega
    · simp [h]
      omega
  exact poolDone_results inputs.length (taskOutcome mapper inputs) _ s hnw
    (poolInv_exec _ _ _ _ s hexec
      (poolInv_init inputs.length limit (taskOutcome mapper inputs)))
    hdone

/-- Closed instance of C3's theorem: two inputs, one worker, the second
task throwing; the run claims 0, finishes it, claims 1, finishes it,
then exits, and the results hold the success and the error record in
input order. -/
theorem c3_async_map_limit_witness :
    (⟨3,
      [some (MapResult.ok 11), some (MapResult.errRec ("bad"))],
      [WorkerStatus.done]⟩ : PoolState Nat).results
      = (List.range ([10, 20] : List Nat).length).map
          (fun i => some (taskOutcome
            (fun a i => if i = 1 then Except.error ("bad")
              else Except.ok (a + 1)) [10, 20] i)) := by
  refine c3_async_map_limit [10, 20] 1
    (fun a i => if i = 1 then Except.error ("bad") else Except.ok (a + 1))
    _ (by omega) ?_ ?_
  · exact Relation.ReflTransGen.head
      (PoolStep.claim ⟨0, [none, none], [WorkerStatus.idle]⟩ 0 rfl
        (by decide))
      (Relation.ReflTransGen.head
        (PoolStep.finish
          ⟨1, [none, none], [WorkerStatus.busy 0]⟩ 0 0 rfl)
        (Relation.ReflTransGen.head
          (PoolStep.claim
            ⟨1, [some (MapResult.ok 11), none], [WorkerStatus.idle]⟩ 0 rfl
            (by decide))
          (Relation.ReflTransGen.head
            (PoolStep.finish
              ⟨2, [some (MapResult.ok 11), none], [WorkerStatus.busy 1]⟩
              0 1 rfl)
            (Relation.ReflTransGen.head
              (PoolStep.exit
                ⟨2, [some (MapResult.ok 11),
                     some (MapResult.errRec ("bad"))],
                 [WorkerStatus.idle]⟩ 0 rfl (by decide))
              Relation.ReflTransGen.refl))))
  · intro w hw
    simpa using hw

/-! ### The pipeline produces the well-formed dates the sort assumes

The sort theorem's hypothesis `wfFilm` is not an extra assumption on the
pipeline: every date string the extraction emits has the `dd-mm-yyyy`
digit shape, and every record the resolving task produces satisfies
`wfFilm`. -/

/-- A matched ISO pattern decomposes into digit groups of the right
widths. -/
theorem isoAt_digits (cs : List Char) (g : String × String × String)
    (h : isoAt cs = some g) :
    ∃ y1 y2 y3 y4 m1 m2 d1 d2 : Char,
      g = (String.mk [y1, y2, y3, y4], String.mk [m1, m2],
           String.mk [d1, d2])
      ∧ ([y1, y2, y3, y4, m1, m2, d1, d2]).all Char.isDigit = true := by
  unfold isoAt at h
  split at h
  · rename_i y1 y2 y3 y4 m1 m2 d1 d2 tl
    split at h
    · rename_i hall
      injection h with h2
      exact ⟨y1, y2, y3, y4, m1, m2, d1, d2, h2.symm, hall⟩
    · cases h
  · cases h

/-- Every group triple found by the scan decomposes into digit groups. -/
theorem findIsoGroups_digits (cs : List Char) (g : String × String × String)
    (h : findIsoGroups cs = some g) :
    ∃ y1 y2 y3 y4 m1 m2 d1 d2 : Char,
      g = (String.mk [y1, y2, y3, y4], String.mk [m1, m2],
           String.mk [d1, d2])
      ∧ ([y1, y2, y3, y4, m1, m2, d1, d2]).all Char.isDigit = true := by
  induction cs with
  | nil => cases h
  | cons c t ih =>
    unfold findIsoGroups at h
    cases hA : isoAt (c :: t) with
    | some g2 =>
      rw [hA] at h
      dsimp only at h
      injection h with h2
      subst h2
      exact isoAt_digits (c :: t) g2 hA
    | none =>
      rw [hA] at h
      dsimp only at h
      exact ih h

/-- Reassembling digit groups as day-month-year yields a well-formed
date string. -/
theorem wfDateStr_build (y1 y2 y3 y4 m1 m2 d1 d2 : Char)
    (hall : ([y1, y2, y3, y4, m1, m2, d1, d2]).all Char.isDigit = true) :
    wfDateStr (String.mk [d1, d2] ++ ("-") ++ String.mk [m1, m2] ++ ("-")
      ++ String.mk [y1, y2, y3, y4]) = true := by
  have hjoin : String.mk [d1, d2] ++ ("-") ++ String.mk [m1, m2] ++ ("-")
      ++ String.mk [y1, y2, y3, y4]
      = String.mk [d1, d2, '-', m1, m2, '-', y1, y2, y3, y4] := rfl
  rw [hjoin]
  simp only [List.all_cons, List.all_nil, Bool.and_eq_true] at hall
  obtain ⟨hy1, hy2, hy3, hy4, hm1, hm2, hd1, hd2, -⟩ := hall
  unfold wfDateStr
  simp [hy1, hy2, hy3, hy4, hm1, hm2, hd1, hd2]

/-- Every `isoToDDMM` output is a well-formed date string. -/
theorem isoToDDMM_wf (s t : String) (h : isoToDDMM s = some t) :
    wfDateStr t = true := by
  unfold isoToDDMM at h
  split at h
  · cases h
  · cases hg : findIsoGroups s.toList with
    | none => rw [hg] at h; cases h
    | some g =>
      rw [hg] at h
      dsimp only [Option.map] at h
      injection h with h2
      obtain ⟨y1, y2, y3, y4, m1, m2, d1, d2, hgeq, hall⟩ :=
        findIsoGroups_digits s.toList g hg
      subst hgeq
      rw [← h2]
      exact wfDateStr_build y1 y2 y3 y4 m1 m2 d1 d2 hall

/-- The truthiness-guarded conversion always yields an absent or
well-formed date. -/
theorem wfDate_ddmmIfTruthy (o : Option String) :
    wfDate (ddmmIfTruthy o) = true := by
  unfold ddmmIfTruthy
  cases o with
  | none => rfl
  | some s =>
    dsimp only
    split
    · rfl
    · cases hm : isoToDDMM s with
      | none => rfl
      | some t => exact isoToDDMM_wf s t hm

/-- Both date fields of every extraction result are absent or
well-formed. -/
theorem extract_dates_wf (json : Option TmdbResponse) (c : String)
    (a : Option (List Int)) :
    wfDate ((extractDatesFromJsonWithTypes json c a).country_earliest) = true
    ∧ wfDate ((extractDatesFromJsonWithTypes json c
        a).type4_earliest_any_iso) = true := by
  cases json with
  | none => exact ⟨rfl, rfl⟩
  | some j =>
    cases j with
    | mk res =>
      cases res with
      | none => exact ⟨rfl, rfl⟩
      | some results =>
        exact ⟨wfDate_ddmmIfTruthy _, wfDate_ddmmIfTruthy _⟩

/-- The film-page phase leaves both date fields absent. -/
theorem pageResult_dates (slug : String) (po : Except String Html) :
    (pageResult slug po).country_release = none
    ∧ (pageResult slug po).digital_release = none := by
  cases po with
  | ok doc => exact ⟨rfl, rfl⟩
  | error m => exact ⟨rfl, rfl⟩

/-- Every record the resolving task produces satisfies the sort
theorem's well-formedness hypothesis. -/
theorem processItem_wf (slug country : String) (allowed : Option (List Int))
    (bearer : Bool) (po : Except String Html)
    (t1 : Except String (Option TmdbResponse)) :
    wfFilm (processItem slug country allowed bearer po t1) = true := by
  unfold wfFilm processItem
  dsimp only
  cases hid : (pageResult slug po).tmdb_id with
  | none =>
    dsimp only
    rw [(pageResult_dates slug po).1, (pageResult_dates slug po).2]
    rfl
  | some n =>
    cases bearer with
    | false =>
      dsimp only
      rw [(pageResult_dates slug po).1, (pageResult_dates slug po).2]
      rfl
    | true =>
      cases t1 with
      | ok json =>
        dsimp only
        have h := extract_dates_wf json country allowed
        rw [h.1, h.2]
        rfl
      | error m =>
        dsimp only
        rw [(pageResult_dates slug po).1, (pageResult_dates slug po).2]
        rfl

end ListRelease
